import Mathlib

/-!
Verification of the chess rules module (`game_rules.py`, `square.py`).

The source files under verification are `game_rules.py` (class `GameRules`)
and `square.py` (class `Square`).  The collaborator classes `Board`, `Game`,
`Piece` and `Move` are external to the provided sources and are modelled from
the specification (its data-model section), as marked on each definition.

Error convention: the single error kind (the spec's `BoardMissingKing`,
raised in `GameRules.is_check` as a Python `ValueError`) is modelled by the
`Option` monad: a `none` result of `is_check`, `get_castling_moves`,
`get_legal_moves` or `get_game_result` means the error was raised; `some`
carries the normal return value.
-/

namespace Chess

/-- Modelled from the spec: `PieceColor` from the piece module, which is not
among the provided source files; the two chess colors. -/
inductive PieceColor where
  | WHITE
  | BLACK
deriving DecidableEq, Repr

/-- Modelled from the spec: `PieceColor.opposing_color` maps WHITE to BLACK
and conversely. -/
def PieceColor.opposing_color : PieceColor → PieceColor
  | .WHITE => .BLACK
  | .BLACK => .WHITE

/-- Modelled from the spec: `PieceType` from the piece module; the six chess
piece kinds. -/
inductive PieceType where
  | PAWN
  | KNIGHT
  | BISHOP
  | ROOK
  | QUEEN
  | KING
deriving DecidableEq, Repr

/-- Modelled from the spec: `Piece` is an immutable (color, type) pair. -/
structure Piece where
  color : PieceColor
  type : PieceType
deriving DecidableEq, Repr

/-- Source `square.py`: a `Square` is a pair of integer coordinates (Python
ints, so unbounded and possibly negative); equality is componentwise. -/
structure Square where
  row : Int
  column : Int
deriving DecidableEq, Repr

/-- Source `square.py`, `Square.is_valid`: both coordinates lie in [0, 8). -/
def Square.is_valid (s : Square) : Bool :=
  decide (0 ≤ s.row ∧ s.row < 8 ∧ 0 ≤ s.column ∧ s.column < 8)

/-- Modelled from the spec: `MoveType` from the move module; the five move
kinds, with ORDINARY the default. -/
inductive MoveType where
  | ORDINARY
  | PAWN_PROMOTION
  | DOUBLE_PAWN_PUSH
  | SHORT_CASTLE
  | LONG_CASTLE
deriving DecidableEq, Repr

/-- Modelled from the spec: `Move` is (start square, end square, move kind),
equal iff all three fields match.  The end-square field is named `endSq`
because `end` is a Lean keyword. -/
structure Move where
  start : Square
  endSq : Square
  type : MoveType := MoveType.ORDINARY
deriving DecidableEq, Repr

/-- Modelled from the spec: `Board` is a snapshot mapping each square to an
optional piece.  We represent the populated squares as an association list;
the board class itself is not among the provided source files. -/
structure Board where
  entries : List (Square × Piece)
deriving DecidableEq, Repr

/-- Modelled from the spec: indexed lookup `board[square]`, the piece on a
square if any (first matching entry of the association list). -/
def Board.get (b : Board) (s : Square) : Option Piece :=
  (b.entries.find? (fun e => decide (e.1 = s))).map (·.2)

/-- Modelled from the spec: `Board.get_squares_with_pieces(color)`, the
squares holding a piece of the given color. -/
def Board.get_squares_with_pieces (b : Board) (c : PieceColor) : List Square :=
  (b.entries.filter (fun e => decide (e.2.color = c))).map (·.1)

/-- The 64 valid board squares, row-major. -/
def allSquares : List Square :=
  (List.range 8).flatMap (fun r => (List.range 8).map (fun c => ⟨(r : Int), (c : Int)⟩))

/-- Modelled from the spec: `Board.get_empty_squares()`; squares outside the
8x8 range are never members of any board-derived square set, so the empty
squares are the valid squares holding no piece. -/
def Board.get_empty_squares (b : Board) : List Square :=
  allSquares.filter (fun s => (b.get s).isNone)

/-- Modelled from the spec: `Board.get_pawn_direction(color)`, +1 for white
and -1 for black (white pawns move towards higher rows). -/
def pawn_direction : PieceColor → Int
  | .WHITE => 1
  | .BLACK => -1

/-- Modelled from the spec: `Board.get_pawn_starting_row(color)`. -/
def pawn_starting_row : PieceColor → Int
  | .WHITE => 1
  | .BLACK => 6

/-- Modelled from the spec: `Board.get_pawn_end_row(color)`, the promotion
rank for that color's pawns, i.e. the opponent's home rank. -/
def pawn_end_row : PieceColor → Int
  | .WHITE => 7
  | .BLACK => 0

/-- Modelled from the spec: the per-color castling-rights mapping
(`PieceColor` to `bool`) carried by a `Game`. -/
structure CastlingRights where
  white : Bool
  black : Bool
deriving DecidableEq, Repr

/-- Lookup of a castling-rights mapping at a color. -/
def CastlingRights.get (r : CastlingRights) : PieceColor → Bool
  | .WHITE => r.white
  | .BLACK => r.black

/-- Modelled from the spec: `Game` bundles the board, the side to move, the
optional en-passant target square and the two castling-rights mappings. -/
structure Game where
  board : Board
  turn : PieceColor
  en_passant : Option Square
  long_castling_rights : CastlingRights
  short_castling_rights : CastlingRights
deriving DecidableEq, Repr

/-- Modelled from the spec: `Game.simulate_move` lives in the game module,
which is not among the provided source files.  The spec describes it as a
pure function returning a new board reflecting the move's effect without
mutating the receiver; we model the move's effect as relocating the piece on
the start square to the end square, replacing any piece standing there. -/
def Game.simulate_move (game : Game) (m : Move) : Board :=
  ⟨(game.board.entries.filter
      (fun e => decide (e.1 ≠ m.start) && decide (e.1 ≠ m.endSq))) ++
    (match game.board.get m.start with
     | some p => [(m.endSq, p)]
     | none => [])⟩

/-- Source `game_rules.py`: the `Result` enum. -/
inductive Result where
  | WHITE_WIN
  | BLACK_WIN
  | STALEMATE
  | INSUFFICIENT_MATERIAL
deriving DecidableEq, Repr

/-- Knight offset table of `__get_psuedo_legal_moves_for_piece`. -/
def knightOffsets : List (Int × Int) :=
  [(1, 2), (1, -2), (-1, 2), (-1, -2), (2, 1), (2, -1), (-2, 1), (-2, -1)]

/-- King offset table of `__get_psuedo_legal_moves_for_piece`. -/
def kingOffsets : List (Int × Int) :=
  [(1, 1), (1, 0), (1, -1), (0, 1), (0, -1), (-1, 1), (-1, 0), (-1, -1)]

/-- Bishop ray directions of `__get_psuedo_legal_moves_for_piece`. -/
def bishopDirections : List (Int × Int) :=
  [(1, 1), (1, -1), (-1, 1), (-1, -1)]

/-- Rook ray directions of `__get_psuedo_legal_moves_for_piece`. -/
def rookDirections : List (Int × Int) :=
  [(1, 0), (-1, 0), (0, 1), (0, -1)]

/-- The square reached from `start` after `steps` steps in direction `d`,
as computed inside the while loop of
`__get_ranged_piece_psuedo_legal_moves_in_direction`. -/
def raySquare (d : Int × Int) (start : Square) (steps : Nat) : Square :=
  ⟨start.row + d.1 * (steps : Int), start.column + d.2 * (steps : Int)⟩

/-- Fuelled version of the while loop of
`__get_ranged_piece_psuedo_legal_moves_in_direction`: starting at step count
`steps`, an empty end square yields a move and continues, a square with an
opponent piece yields a move and stops, anything else stops.  A `none`
result means the fuel ran out before the loop stopped. -/
def rayAux (d : Int × Int) (start : Square) (empty opp : List Square) :
    Nat → Nat → Option (List Move)
  | 0, _ => none
  | fuel + 1, steps =>
    let endSq := raySquare d start steps
    if endSq ∈ empty then
      (rayAux d start empty opp fuel (steps + 1)).map
        (fun l => Move.mk start endSq MoveType.ORDINARY :: l)
    else if endSq ∈ opp then
      some [Move.mk start endSq MoveType.ORDINARY]
    else
      some []

/-- Source `GameRules.__get_ranged_piece_psuedo_legal_moves_in_direction`:
the while loop run from step 1.  Fuel `empty.length + 1` always suffices for
a nonzero direction (see the termination theorem below), so the `getD`
default is never taken at the call sites, whose directions are all nonzero. -/
def get_ranged_piece_psuedo_legal_moves_in_direction (d : Int × Int)
    (start : Square) (empty opp : List Square) : List Move :=
  (rayAux d start empty opp (empty.length + 1) 1).getD []

/-- Pawn case of `__get_psuedo_legal_moves_for_piece`: captures onto the two
diagonal squares when they hold an opponent piece (or are the en-passant
target, already appended to `opp`), then a single push onto an empty square,
then a double push from the starting row across empty squares.  Single-step
moves are tagged PAWN_PROMOTION when the row ahead is the pawn end row, else
ORDINARY; double pushes are tagged DOUBLE_PAWN_PUSH. -/
def pawnMovesFor (color : PieceColor) (start : Square)
    (empty opp : List Square) : List Move :=
  let d := pawn_direction color
  let oneRowForward : Int := start.row + d
  let moveType : MoveType :=
    if oneRowForward = pawn_end_row color then MoveType.PAWN_PROMOTION
    else MoveType.ORDINARY
  let captureSquares : List Square :=
    [⟨oneRowForward, start.column - 1⟩, ⟨oneRowForward, start.column + 1⟩]
  let captures : List Move :=
    (captureSquares.filter (fun c => decide (c ∈ opp))).map
      (fun c => Move.mk start c moveType)
  let oneSquareForward : Square := ⟨oneRowForward, start.column⟩
  let twoSquaresForward : Square := ⟨oneRowForward + d, start.column⟩
  let forward : List Move :=
    if oneSquareForward ∈ empty then
      Move.mk start oneSquareForward moveType ::
        (if start.row = pawn_starting_row color ∧ twoSquaresForward ∈ empty
         then [Move.mk start twoSquaresForward MoveType.DOUBLE_PAWN_PUSH]
         else [])
    else []
  captures ++ forward

/-- Knight and king cases of `__get_psuedo_legal_moves_for_piece`: fixed
offsets landing on an empty or opponent-held square. -/
def leaperMoves (offsets : List (Int × Int)) (start : Square)
    (available : List Square) : List Move :=
  offsets.filterMap (fun o =>
    let endSq : Square := ⟨start.row + o.1, start.column + o.2⟩
    if endSq ∈ available then some (Move.mk start endSq MoveType.ORDINARY)
    else none)

/-- Source `GameRules.__get_psuedo_legal_moves_for_piece`.  The opponent
square list has the en-passant target appended when present (for every piece
type, as in the source, which appends before dispatching on the type).  The
queen case reproduces the source's recursive calls for a bishop and a rook
of the same color on the same board with no en-passant target: those calls
recompute the empty squares (unchanged) and the opponent squares without the
en-passant target. -/
def get_psuedo_legal_moves_for_piece (piece : Piece) (start : Square)
    (board : Board) (en_passant : Option Square) : List Move :=
  let oppBase := board.get_squares_with_pieces (PieceColor.opposing_color piece.color)
  let opp := match en_passant with
    | some s => oppBase ++ [s]
    | none => oppBase
  let empty := board.get_empty_squares
  match piece.type with
  | .PAWN => pawnMovesFor piece.color start empty opp
  | .KNIGHT => leaperMoves knightOffsets start (empty ++ opp)
  | .BISHOP => bishopDirections.flatMap
      (fun d => get_ranged_piece_psuedo_legal_moves_in_direction d start empty opp)
  | .ROOK => rookDirections.flatMap
      (fun d => get_ranged_piece_psuedo_legal_moves_in_direction d start empty opp)
  | .QUEEN =>
      bishopDirections.flatMap
        (fun d => get_ranged_piece_psuedo_legal_moves_in_direction d start empty oppBase) ++
      rookDirections.flatMap
        (fun d => get_ranged_piece_psuedo_legal_moves_in_direction d start empty oppBase)
  | .KING => leaperMoves kingOffsets start (empty ++ opp)

/-- Source `GameRules.__get_psuedo_legal_moves`: pseudo-legal moves of every
piece of the side to move.  (In the source, `board[square]` is never absent
for a square returned by `get_squares_with_pieces`; the `none` branch is
unreachable for association-list boards.) -/
def get_psuedo_legal_moves (game : Game) : List Move :=
  (game.board.get_squares_with_pieces game.turn).flatMap (fun sq =>
    match game.board.get sq with
    | some piece => get_psuedo_legal_moves_for_piece piece sq game.board game.en_passant
    | none => [])

/-- Loop body of `GameRules.__get_attacked_squares` for one populated
square: a pawn contributes its two diagonal-forward squares filtered to
valid coordinates, any other piece the end squares of its pseudo-legal
moves with no en-passant target. -/
def attackContribution (board : Board) (sq : Square) : List Square :=
  match board.get sq with
  | some piece =>
    if piece.type = PieceType.PAWN then
      let d := pawn_direction piece.color
      ([⟨sq.row + d, sq.column - 1⟩, ⟨sq.row + d, sq.column + 1⟩] : List Square).filter
        (fun s => s.is_valid)
    else
      (get_psuedo_legal_moves_for_piece piece sq board none).map (·.endSq)
  | none => []

/-- Source `GameRules.__get_attacked_squares`: the attack contributions of
every square holding a piece of the color. -/
def get_attacked_squares (board : Board) (turn : PieceColor) : List Square :=
  (board.get_squares_with_pieces turn).flatMap (attackContribution board)

/-- One iteration of the king-locating loop of `GameRules.is_check`: the
current square replaces the remembered one when its piece is a king. -/
def kingStep (board : Board) (acc : Option Square) (sq : Square) : Option Square :=
  match board.get sq with
  | some piece => if piece.type = PieceType.KING then some sq else acc
  | none => acc

/-- King-locating loop of `GameRules.is_check`: scan the squares holding
pieces of the king's color, remembering the last square whose piece is a
king. -/
def find_king_square (board : Board) (king_color : PieceColor) : Option Square :=
  (board.get_squares_with_pieces king_color).foldl (kingStep board) none

/-- Source `GameRules.is_check`: the king square is in the set of squares
attacked by the opposing color; `none` models the raised BoardMissingKing
error when no king of the color is found. -/
def is_check (board : Board) (king_color : PieceColor) : Option Bool :=
  let attacked := get_attacked_squares board (PieceColor.opposing_color king_color)
  match find_king_square board king_color with
  | none => none
  | some kingSq => some (decide (kingSq ∈ attacked))

/-- The lambda `valid_castling_square` of `GameRules.__get_castling_moves`:
the square is empty and not attacked by the opponent. -/
def validCastlingSquare (game : Game) (s : Square) : Prop :=
  s ∈ game.board.get_empty_squares ∧
    s ∉ get_attacked_squares game.board (PieceColor.opposing_color game.turn)

instance (game : Game) (s : Square) : Decidable (validCastlingSquare game s) :=
  inferInstanceAs (Decidable (_ ∧ _))

/-- Back rank of the side to move in `__get_castling_moves`:
the pawn end row of the opposing color. -/
def castlingRow (game : Game) : Int :=
  pawn_end_row (PieceColor.opposing_color game.turn)

/-- The three LONG_CASTLE move records emitted by `__get_castling_moves`. -/
def longCastleMoves (row : Int) : List Move :=
  [Move.mk ⟨row, 4⟩ ⟨row, 0⟩ MoveType.LONG_CASTLE,
   Move.mk ⟨row, 4⟩ ⟨row, 1⟩ MoveType.LONG_CASTLE,
   Move.mk ⟨row, 4⟩ ⟨row, 2⟩ MoveType.LONG_CASTLE]

/-- The two SHORT_CASTLE move records emitted by `__get_castling_moves`. -/
def shortCastleMoves (row : Int) : List Move :=
  [Move.mk ⟨row, 4⟩ ⟨row, 6⟩ MoveType.SHORT_CASTLE,
   Move.mk ⟨row, 4⟩ ⟨row, 7⟩ MoveType.SHORT_CASTLE]

/-- Source `GameRules.__get_castling_moves`: nothing when in check
(propagating the BoardMissingKing error as `none`); otherwise the long
moves when the long rights flag is set and columns 1, 2, 3 of the back rank
are valid castling squares, followed by the short moves when the short
rights flag is set and columns 5, 6 are valid castling squares. -/
def get_castling_moves (game : Game) : Option (List Move) := do
  let inCheck ← is_check game.board game.turn
  if inCheck then
    return []
  else
    let row := castlingRow game
    let longList :=
      if game.long_castling_rights.get game.turn = true ∧
          validCastlingSquare game ⟨row, 1⟩ ∧ validCastlingSquare game ⟨row, 2⟩ ∧
          validCastlingSquare game ⟨row, 3⟩
      then longCastleMoves row else []
    let shortList :=
      if game.short_castling_rights.get game.turn = true ∧
          validCastlingSquare game ⟨row, 5⟩ ∧ validCastlingSquare game ⟨row, 6⟩
      then shortCastleMoves row else []
    return longList ++ shortList

/-- Filtering loop of `GameRules.get_legal_moves`: keep the pseudo-legal
moves whose simulation does not leave the mover's king in check, propagating
the BoardMissingKing error of any `is_check` call. -/
def filterNotCheck (game : Game) : List Move → Option (List Move)
  | [] => some []
  | m :: rest => do
    let inCheck ← is_check (game.simulate_move m) game.turn
    let others ← filterNotCheck game rest
    if inCheck then return others else return m :: others

/-- Source `GameRules.get_legal_moves`: the pseudo-legal moves surviving the
simulate-and-test filter, extended with the castling moves. -/
def get_legal_moves (game : Game) : Option (List Move) := do
  let filtered ← filterNotCheck game (get_psuedo_legal_moves game)
  let castles ← get_castling_moves game
  return filtered ++ castles

/-- Python set equality of two piece-type lists, as used on the `set`
comprehension in `__is_insufficient_material`. -/
def typeSetEq (a b : List PieceType) : Bool :=
  a.all (fun t => decide (t ∈ b)) && b.all (fun t => decide (t ∈ a))

/-- Source `GameRules.__is_insufficient_material`: at most two pieces whose
type set equals {KING}, {KING, KNIGHT} or {KING, BISHOP}. -/
def is_insufficient_material (pieces : List Piece) : Bool :=
  if pieces.length > 2 then false
  else
    let pieceTypes := pieces.map (·.type)
    typeSetEq pieceTypes [PieceType.KING] ||
    typeSetEq pieceTypes [PieceType.KING, PieceType.KNIGHT] ||
    typeSetEq pieceTypes [PieceType.KING, PieceType.BISHOP]

/-- The piece list a color contributes in `get_game_result`
(`board[square]` over `get_squares_with_pieces`; every lookup succeeds). -/
def piecesOf (board : Board) (c : PieceColor) : List Piece :=
  (board.get_squares_with_pieces c).filterMap board.get

/-- Source `GameRules.get_game_result`: with no legal moves, a win for the
opponent when in check and otherwise stalemate; with legal moves, an
insufficient-material draw when both sides' piece lists qualify, and
otherwise no result.  The outer `Option` models the BoardMissingKing error,
the inner one the absent result of an ongoing game. -/
def get_game_result (game : Game) : Option (Option Result) := do
  let legal ← get_legal_moves game
  if legal.isEmpty then
    let inCheck ← is_check game.board game.turn
    if inCheck then
      return some (if game.turn = PieceColor.BLACK then Result.WHITE_WIN else Result.BLACK_WIN)
    else
      return some Result.STALEMATE
  else
    let whitePieces := piecesOf game.board PieceColor.WHITE
    let blackPieces := piecesOf game.board PieceColor.BLACK
    if is_insufficient_material whitePieces && is_insufficient_material blackPieces then
      return some Result.INSUFFICIENT_MATERIAL
    else
      return none

/-- Definition following the spec's words for claim C4: a side's pieces
satisfy insufficient material when the piece count is at most 2 and the
piece-type set is a subset of {KING}, {KING, KNIGHT}, or {KING, BISHOP}. -/
def spec_insufficient_material (pieces : List Piece) : Prop :=
  pieces.length ≤ 2 ∧
  ((∀ p ∈ pieces, p.type = PieceType.KING) ∨
   (∀ p ∈ pieces, p.type = PieceType.KING ∨ p.type = PieceType.KNIGHT) ∨
   (∀ p ∈ pieces, p.type = PieceType.KING ∨ p.type = PieceType.BISHOP))

instance (pieces : List Piece) : Decidable (spec_insufficient_material pieces) :=
  inferInstanceAs (Decidable (_ ∧ (_ ∨ _ ∨ _)))

/-- Amended characterization of the source's insufficient-material test: the
piece count is at most 2 and the piece-type set is equal to (not merely
contained in) {KING}, {KING, KNIGHT}, or {KING, BISHOP}. -/
def spec_insufficient_material_eq (pieces : List Piece) : Prop :=
  pieces.length ≤ 2 ∧
  (((∀ p ∈ pieces, p.type = PieceType.KING) ∧
      (∃ p ∈ pieces, p.type = PieceType.KING)) ∨
   ((∀ p ∈ pieces, p.type = PieceType.KING ∨ p.type = PieceType.KNIGHT) ∧
      (∃ p ∈ pieces, p.type = PieceType.KING) ∧ (∃ p ∈ pieces, p.type = PieceType.KNIGHT)) ∨
   ((∀ p ∈ pieces, p.type = PieceType.KING ∨ p.type = PieceType.BISHOP) ∧
      (∃ p ∈ pieces, p.type = PieceType.KING) ∧ (∃ p ∈ pieces, p.type = PieceType.BISHOP)))

instance (pieces : List Piece) : Decidable (spec_insufficient_material_eq pieces) :=
  inferInstanceAs (Decidable (_ ∧ (_ ∨ _ ∨ _)))

/-! ## Example positions -/

/-- Example game: white king on its home square e1, black king on a8, black
rook on h8; white to move with only the short castling right. -/
def exGame1 : Game :=
  ⟨⟨[(⟨0, 4⟩, ⟨.WHITE, .KING⟩), (⟨7, 0⟩, ⟨.BLACK, .KING⟩), (⟨7, 7⟩, ⟨.BLACK, .ROOK⟩)]⟩,
   .WHITE, none, ⟨false, false⟩, ⟨true, false⟩⟩

/-- The SHORT_CASTLE move record of `exGame1` landing on the rook column. -/
def exCastleMove : Move := Move.mk ⟨0, 4⟩ ⟨0, 7⟩ MoveType.SHORT_CASTLE

/-- Example game: a stalemate — white king cornered on a1 by a black queen
on c2, black king far away, white to move. -/
def exGame3 : Game :=
  ⟨⟨[(⟨0, 0⟩, ⟨.WHITE, .KING⟩), (⟨1, 2⟩, ⟨.BLACK, .QUEEN⟩), (⟨7, 7⟩, ⟨.BLACK, .KING⟩)]⟩,
   .WHITE, none, ⟨false, false⟩, ⟨false, false⟩⟩

/-- Example game: a lone white king and no black pieces at all, white to
move. -/
def exGame4 : Game :=
  ⟨⟨[(⟨0, 0⟩, ⟨.WHITE, .KING⟩)]⟩, .WHITE, none, ⟨false, false⟩, ⟨false, false⟩⟩

/-- Example game: a white king and a white pawn whose en-passant target is
the king's own square, white to move. -/
def exGame5 : Game :=
  ⟨⟨[(⟨5, 5⟩, ⟨.WHITE, .KING⟩), (⟨4, 4⟩, ⟨.WHITE, .PAWN⟩)]⟩,
   .WHITE, some ⟨5, 5⟩, ⟨false, false⟩, ⟨false, false⟩⟩

/-- Example game: both white castling rights set, the back rank entirely
empty (the white king stands on c3), black king far away; white to move. -/
def exGame8 : Game :=
  ⟨⟨[(⟨2, 2⟩, ⟨.WHITE, .KING⟩), (⟨7, 7⟩, ⟨.BLACK, .KING⟩)]⟩,
   .WHITE, none, ⟨true, false⟩, ⟨true, false⟩⟩

/-- Example board: a white pawn one step from promotion with a black rook on
an adjacent promotion square. -/
def exPromoBoard : Board :=
  ⟨[(⟨6, 3⟩, ⟨.WHITE, .PAWN⟩), (⟨7, 4⟩, ⟨.BLACK, .ROOK⟩)]⟩

/-- Well-formedness of a board snapshot: each square is mapped at most once
and every populated square is a valid board coordinate.  The real board
class maintains a square-to-piece mapping, which guarantees both. -/
def Board.WF (b : Board) : Prop :=
  (b.entries.map (·.1)).Nodup ∧ ∀ e ∈ b.entries, e.1.is_valid = true

instance (b : Board) : Decidable b.WF :=
  inferInstanceAs (Decidable (_ ∧ _))

/-! ## Supporting lemmas about move generation -/

/-- Every move produced by the ray loop starts at the start square, is
tagged ORDINARY, and ends on an empty or opponent-held square. -/
theorem rayAux_mem {d : Int × Int} {start : Square} {empty opp : List Square}
    {f k : Nat} {l : List Move} (h : rayAux d start empty opp f k = some l) :
    ∀ m ∈ l, m.start = start ∧ m.type = MoveType.ORDINARY ∧
      (m.endSq ∈ empty ∨ m.endSq ∈ opp) := by
  induction f generalizing k l with
  | zero => simp [rayAux] at h
  | succ f ih =>
    rw [rayAux] at h
    by_cases h1 : raySquare d start k ∈ empty
    · simp only [if_pos h1, Option.map_eq_some'] at h
      obtain ⟨l', hl', rfl⟩ := h
      intro m hm
      rcases List.mem_cons.mp hm with rfl | hm'
      · exact ⟨rfl, rfl, Or.inl h1⟩
      · exact ih hl' m hm'
    · by_cases h2 : raySquare d start k ∈ opp
      · simp only [if_neg h1, if_pos h2, Option.some.injEq] at h
        subst h
        intro m hm
        rcases List.mem_cons.mp hm with rfl | hm'
        · exact ⟨rfl, rfl, Or.inr h2⟩
        · simp at hm'
      · simp only [if_neg h1, if_neg h2, Option.some.injEq] at h
        subst h
        intro m hm
        simp at hm

/-- Every move of the ray wrapper starts at the start square, is tagged
ORDINARY, and ends on an empty or opponent-held square. -/
theorem ranged_mem {d : Int × Int} {start : Square} {empty opp : List Square}
    {m : Move}
    (hm : m ∈ get_ranged_piece_psuedo_legal_moves_in_direction d start empty opp) :
    m.start = start ∧ m.type = MoveType.ORDINARY ∧
      (m.endSq ∈ empty ∨ m.endSq ∈ opp) := by
  unfold get_ranged_piece_psuedo_legal_moves_in_direction at hm
  cases h : rayAux d start empty opp (empty.length + 1) 1 with
  | none => rw [h] at hm; simp at hm
  | some l => rw [h] at hm; exact rayAux_mem h m hm

/-- Every move produced by the fixed-offset (knight/king) generator starts
at the start square, is tagged ORDINARY, and ends on an available square. -/
theorem leaperMoves_mem {offsets : List (Int × Int)} {start : Square}
    {available : List Square} {m : Move} (hm : m ∈ leaperMoves offsets start available) :
    m.start = start ∧ m.type = MoveType.ORDINARY ∧ m.endSq ∈ available := by
  unfold leaperMoves at hm
  obtain ⟨o, _, ho⟩ := List.mem_filterMap.mp hm
  by_cases h : (⟨start.row + o.1, start.column + o.2⟩ : Square) ∈ available
  · simp only [if_pos h, Option.some.injEq] at ho
    subst ho
    exact ⟨rfl, rfl, h⟩
  · simp [if_neg h] at ho

/-- Shape of a generated pawn move: it starts at the pawn's square and is
either a capture onto an opponent-held diagonal square, a single push onto
an empty square, or a double push onto an empty square, with the source's
tagging. -/
theorem pawnMovesFor_mem {color : PieceColor} {start : Square}
    {empty opp : List Square} {m : Move} (hm : m ∈ pawnMovesFor color start empty opp) :
    m.start = start ∧
    (let d := pawn_direction color
     let moveType := if start.row + d = pawn_end_row color then MoveType.PAWN_PROMOTION
       else MoveType.ORDINARY
     (m.endSq ∈ opp ∧ m.endSq.row = start.row + d ∧ m.type = moveType ∧
        (m.endSq.column = start.column - 1 ∨ m.endSq.column = start.column + 1)) ∨
     (m.endSq = ⟨start.row + d, start.column⟩ ∧ m.endSq ∈ empty ∧ m.type = moveType) ∨
     (m.endSq = ⟨start.row + d + d, start.column⟩ ∧ m.endSq ∈ empty ∧
        start.row = pawn_starting_row color ∧ m.type = MoveType.DOUBLE_PAWN_PUSH)) := by
  unfold pawnMovesFor at hm
  simp only [List.mem_append] at hm
  rcases hm with hc | hf
  · obtain ⟨c, hc1, hc2⟩ := List.mem_map.mp hc
    rw [List.mem_filter] at hc1
    obtain ⟨hcmem, hcopp⟩ := hc1
    have hopp : c ∈ opp := of_decide_eq_true hcopp
    subst hc2
    refine ⟨rfl, Or.inl ⟨hopp, ?_, rfl, ?_⟩⟩
    · rcases List.mem_cons.mp hcmem with rfl | h'
      · rfl
      · rcases List.mem_cons.mp h' with rfl | h''
        · rfl
        · simp at h''
    · rcases List.mem_cons.mp hcmem with rfl | h'
      · exact Or.inl rfl
      · rcases List.mem_cons.mp h' with rfl | h''
        · exact Or.inr rfl
        · simp at h''
  · by_cases h1 : (⟨start.row + pawn_direction color, start.column⟩ : Square) ∈ empty
    · simp only [if_pos h1] at hf
      rcases List.mem_cons.mp hf with rfl | hf'
      · exact ⟨rfl, Or.inr (Or.inl ⟨rfl, h1, rfl⟩)⟩
      · by_cases h2 : start.row = pawn_starting_row color ∧
          (⟨start.row + pawn_direction color + pawn_direction color, start.column⟩ : Square) ∈ empty
        · simp only [if_pos h2] at hf'
          rcases List.mem_cons.mp hf' with rfl | h''
          · exact ⟨rfl, Or.inr (Or.inr ⟨rfl, h2.2, h2.1, rfl⟩)⟩
          · simp at h''
        · simp [if_neg h2] at hf'
    · simp [if_neg h1] at hf

/-- Every pseudo-legal move of a piece starts at the piece's square, carries
one of the three non-castling tags, and ends on an empty square, a square
with an opponent piece, or the en-passant target. -/
theorem pseudo_piece_mem {piece : Piece} {start : Square} {board : Board}
    {en_passant : Option Square} {m : Move}
    (hm : m ∈ get_psuedo_legal_moves_for_piece piece start board en_passant) :
    m.start = start ∧
    (m.type = MoveType.ORDINARY ∨ m.type = MoveType.PAWN_PROMOTION ∨
      m.type = MoveType.DOUBLE_PAWN_PUSH) ∧
    (m.endSq ∈ board.get_empty_squares ∨
      m.endSq ∈ board.get_squares_with_pieces (PieceColor.opposing_color piece.color) ∨
      en_passant = some m.endSq) := by
  unfold get_psuedo_legal_moves_for_piece at hm
  have hoppSub : ∀ s : Square,
      s ∈ (match en_passant with
            | some t => board.get_squares_with_pieces (PieceColor.opposing_color piece.color) ++ [t]
            | none => board.get_squares_with_pieces (PieceColor.opposing_color piece.color)) →
      s ∈ board.get_squares_with_pieces (PieceColor.opposing_color piece.color) ∨
        en_passant = some s := by
    intro s hs
    cases en_passant with
    | none => exact Or.inl hs
    | some t =>
      rcases List.mem_append.mp hs with h | h
      · exact Or.inl h
      · simp at h
        subst h
        exact Or.inr rfl
  cases hpt : piece.type with
  | PAWN =>
    rw [hpt] at hm
    obtain ⟨hstart, hshape⟩ := pawnMovesFor_mem hm
    refine ⟨hstart, ?_, ?_⟩
    · rcases hshape with ⟨_, _, ht, _⟩ | ⟨_, _, ht⟩ | ⟨_, _, _, ht⟩ <;> rw [ht]
      · by_cases hpe : start.row + pawn_direction piece.color = pawn_end_row piece.color <;>
          simp [hpe]
      · by_cases hpe : start.row + pawn_direction piece.color = pawn_end_row piece.color <;>
          simp [hpe]
      · simp
    · rcases hshape with ⟨hopp, _, _, _⟩ | ⟨_, hemp, _⟩ | ⟨_, hemp, _, _⟩
      · rcases hoppSub _ hopp with h | h
        · exact Or.inr (Or.inl h)
        · exact Or.inr (Or.inr h)
      · exact Or.inl hemp
      · exact Or.inl hemp
  | KNIGHT =>
    rw [hpt] at hm
    obtain ⟨hstart, htype, hav⟩ := leaperMoves_mem hm
    refine ⟨hstart, Or.inl htype, ?_⟩
    rcases List.mem_append.mp hav with h | h
    · exact Or.inl h
    · rcases hoppSub _ h with h' | h'
      · exact Or.inr (Or.inl h')
      · exact Or.inr (Or.inr h')
  | KING =>
    rw [hpt] at hm
    obtain ⟨hstart, htype, hav⟩ := leaperMoves_mem hm
    refine ⟨hstart, Or.inl htype, ?_⟩
    rcases List.mem_append.mp hav with h | h
    · exact Or.inl h
    · rcases hoppSub _ h with h' | h'
      · exact Or.inr (Or.inl h')
      · exact Or.inr (Or.inr h')
  | BISHOP =>
    rw [hpt] at hm
    obtain ⟨d, _, hd⟩ := List.mem_flatMap.mp hm
    obtain ⟨hstart, htype, hend⟩ := ranged_mem hd
    refine ⟨hstart, Or.inl htype, ?_⟩
    rcases hend with h | h
    · exact Or.inl h
    · rcases hoppSub _ h with h' | h'
      · exact Or.inr (Or.inl h')
      · exact Or.inr (Or.inr h')
  | ROOK =>
    rw [hpt] at hm
    obtain ⟨d, _, hd⟩ := List.mem_flatMap.mp hm
    obtain ⟨hstart, htype, hend⟩ := ranged_mem hd
    refine ⟨hstart, Or.inl htype, ?_⟩
    rcases hend with h | h
    · exact Or.inl h
    · rcases hoppSub _ h with h' | h'
      · exact Or.inr (Or.inl h')
      · exact Or.inr (Or.inr h')
  | QUEEN =>
    rw [hpt] at hm
    rcases List.mem_append.mp hm with hq | hq <;>
    · obtain ⟨d, _, hd⟩ := List.mem_flatMap.mp hq
      obtain ⟨hstart, htype, hend⟩ := ranged_mem hd
      refine ⟨hstart, Or.inl htype, ?_⟩
      rcases hend with h | h
      · exact Or.inl h
      · exact Or.inr (Or.inl h)

/-- Every pseudo-legal move of the side to move arises from one of its
pieces. -/
theorem pseudo_mem {game : Game} {m : Move} (hm : m ∈ get_psuedo_legal_moves game) :
    ∃ sq piece, sq ∈ game.board.get_squares_with_pieces game.turn ∧
      game.board.get sq = some piece ∧
      m ∈ get_psuedo_legal_moves_for_piece piece sq game.board game.en_passant := by
  unfold get_psuedo_legal_moves at hm
  obtain ⟨sq, hsq, hmem⟩ := List.mem_flatMap.mp hm
  cases hget : game.board.get sq with
  | none => rw [hget] at hmem; simp at hmem
  | some piece =>
    rw [hget] at hmem
    exact ⟨sq, piece, hsq, hget, hmem⟩

/-- Soundness of the simulate-and-test filter: every surviving move is a
pseudo-legal input move whose simulation leaves the mover's king out of
check. -/
theorem filterNotCheck_mem {game : Game} {l out : List Move}
    (h : filterNotCheck game l = some out) :
    ∀ m ∈ out, m ∈ l ∧ is_check (game.simulate_move m) game.turn = some false := by
  induction l generalizing out with
  | nil =>
    simp only [filterNotCheck, Option.some.injEq] at h
    subst h
    intro m hm
    simp at hm
  | cons a rest ih =>
    simp only [filterNotCheck, Option.bind_eq_bind] at h
    cases hc : is_check (game.simulate_move a) game.turn with
    | none => rw [hc] at h; simp at h
    | some c =>
      rw [hc] at h
      simp only [Option.some_bind] at h
      cases hrest : filterNotCheck game rest with
      | none => rw [hrest] at h; simp at h
      | some others =>
        rw [hrest] at h
        simp only [Option.some_bind] at h
        cases c with
        | true =>
          simp only [if_pos] at h
          obtain rfl : others = out := by simpa using h
          intro m hm
          obtain ⟨h1, h2⟩ := ih hrest m hm
          exact ⟨List.mem_cons_of_mem a h1, h2⟩
        | false =>
          obtain rfl : a :: others = out := by simpa using h
          intro m hm
          rcases List.mem_cons.mp hm with rfl | hm'
          · exact ⟨List.mem_cons_self m rest, hc⟩
          · obtain ⟨h1, h2⟩ := ih hrest m hm'
            exact ⟨List.mem_cons_of_mem a h1, h2⟩

/-- Castling generation succeeds exactly when the initial check test does. -/
theorem castles_isSome {game : Game} {l : List Move}
    (h : get_castling_moves game = some l) :
    ∃ c, is_check game.board game.turn = some c := by
  unfold get_castling_moves at h
  cases hc : is_check game.board game.turn with
  | none => rw [hc] at h; simp at h
  | some c => exact ⟨c, rfl⟩

/-- Value of castling generation when the side to move is in check. -/
theorem castles_of_check {game : Game}
    (hc : is_check game.board game.turn = some true) :
    get_castling_moves game = some [] := by
  unfold get_castling_moves
  rw [hc]
  rfl

/-- Value of castling generation when the side to move is not in check: the
long block (guarded by the rights flag and the three in-between squares)
followed by the short block (guarded by the rights flag and the two
in-between squares). -/
theorem castles_of_not_check {game : Game}
    (hc : is_check game.board game.turn = some false) :
    get_castling_moves game = some
      ((if game.long_castling_rights.get game.turn = true ∧
          validCastlingSquare game ⟨castlingRow game, 1⟩ ∧
          validCastlingSquare game ⟨castlingRow game, 2⟩ ∧
          validCastlingSquare game ⟨castlingRow game, 3⟩
        then longCastleMoves (castlingRow game) else []) ++
       (if game.short_castling_rights.get game.turn = true ∧
          validCastlingSquare game ⟨castlingRow game, 5⟩ ∧
          validCastlingSquare game ⟨castlingRow game, 6⟩
        then shortCastleMoves (castlingRow game) else [])) := by
  unfold get_castling_moves
  rw [hc]
  rfl

/-- Every emitted castling move is one of the five fixed records and is
tagged LONG_CASTLE or SHORT_CASTLE. -/
theorem castles_mem {game : Game} {l : List Move}
    (h : get_castling_moves game = some l) :
    ∀ m ∈ l, (m ∈ longCastleMoves (castlingRow game) ∧ m.type = MoveType.LONG_CASTLE) ∨
      (m ∈ shortCastleMoves (castlingRow game) ∧ m.type = MoveType.SHORT_CASTLE) := by
  obtain ⟨c, hc⟩ := castles_isSome h
  cases c with
  | true =>
    rw [castles_of_check hc] at h
    obtain rfl : ([] : List Move) = l := by simpa using h
    intro m hm
    simp at hm
  | false =>
    rw [castles_of_not_check hc] at h
    rw [Option.some.injEq] at h
    subst h
    intro m hm
    rcases List.mem_append.mp hm with h | h
    · left
      constructor
      · by_cases hcond : game.long_castling_rights.get game.turn = true ∧
            validCastlingSquare game ⟨castlingRow game, 1⟩ ∧
            validCastlingSquare game ⟨castlingRow game, 2⟩ ∧
            validCastlingSquare game ⟨castlingRow game, 3⟩
        · rwa [if_pos hcond] at h
        · rw [if_neg hcond] at h; simp at h
      · by_cases hcond : game.long_castling_rights.get game.turn = true ∧
            validCastlingSquare game ⟨castlingRow game, 1⟩ ∧
            validCastlingSquare game ⟨castlingRow game, 2⟩ ∧
            validCastlingSquare game ⟨castlingRow game, 3⟩
        · rw [if_pos hcond] at h
          unfold longCastleMoves at h
          rcases List.mem_cons.mp h with rfl | h'
          · rfl
          · rcases List.mem_cons.mp h' with rfl | h''
            · rfl
            · rcases List.mem_cons.mp h'' with rfl | h'''
              · rfl
              · simp at h'''
        · rw [if_neg hcond] at h; simp at h
    · right
      constructor
      · by_cases hcond : game.short_castling_rights.get game.turn = true ∧
            validCastlingSquare game ⟨castlingRow game, 5⟩ ∧
            validCastlingSquare game ⟨castlingRow game, 6⟩
        · rwa [if_pos hcond] at h
        · rw [if_neg hcond] at h; simp at h
      · by_cases hcond : game.short_castling_rights.get game.turn = true ∧
            validCastlingSquare game ⟨castlingRow game, 5⟩ ∧
            validCastlingSquare game ⟨castlingRow game, 6⟩
        · rw [if_pos hcond] at h
          unfold shortCastleMoves at h
          rcases List.mem_cons.mp h with rfl | h'
          · rfl
          · rcases List.mem_cons.mp h' with rfl | h''
            · rfl
            · simp at h''
        · rw [if_neg hcond] at h; simp at h

/-- Decomposition of the legal-move list into the filtered pseudo-legal
moves followed by the castling moves. -/
theorem legal_moves_decomp {game : Game} {moves : List Move}
    (h : get_legal_moves game = some moves) :
    ∃ l1 l2, filterNotCheck game (get_psuedo_legal_moves game) = some l1 ∧
      get_castling_moves game = some l2 ∧ moves = l1 ++ l2 := by
  unfold get_legal_moves at h
  cases h1 : filterNotCheck game (get_psuedo_legal_moves game) with
  | none => rw [h1] at h; simp at h
  | some l1 =>
    rw [h1] at h
    cases h2 : get_castling_moves game with
    | none => rw [h2] at h; simp at h
    | some l2 =>
      rw [h2] at h
      refine ⟨l1, l2, rfl, rfl, ?_⟩
      simpa using h.symm

/-! ## Claim C1 -/

/-- Claim C1, counterexample: in `exGame1` the short-castle record landing
on column 7 is offered by `get_legal_moves`, yet simulating it leaves white
in check from the h8 rook — castling moves are appended without the
simulate-and-test filter, so the claim as stated is false. -/
theorem C1_counterexample :
    (get_legal_moves exGame1).map (fun l => decide (exCastleMove ∈ l)) = some true ∧
    is_check (exGame1.simulate_move exCastleMove) exGame1.turn = some true := by
  constructor
  · decide
  · decide

/-- Claim C1 (amended): for every game g and every move m in
get_legal_moves(g) that is not tagged as a castling move, the board produced
by simulate_move(g, m) is not in check for the side to move.  (Castling
moves are appended without the simulate-and-test filter and can leave the
king in check, as the counterexample shows.) -/
theorem C1_legal_noncastle_not_check (game : Game) (moves : List Move) (m : Move)
    (h : get_legal_moves game = some moves) (hm : m ∈ moves)
    (hlong : m.type ≠ MoveType.LONG_CASTLE) (hshort : m.type ≠ MoveType.SHORT_CASTLE) :
    is_check (game.simulate_move m) game.turn = some false := by
  obtain ⟨l1, l2, h1, h2, rfl⟩ := legal_moves_decomp h
  rcases List.mem_append.mp hm with hm1 | hm2
  · exact (filterNotCheck_mem h1 m hm1).2
  · rcases castles_mem h2 m hm2 with ⟨_, ht⟩ | ⟨_, ht⟩
    · exact absurd ht hlong
    · exact absurd ht hshort

/-- Claim C1 (amended), witness: a concrete non-castling legal move of
`exGame1` whose simulation leaves white out of check. -/
theorem C1_witness :
    is_check (exGame1.simulate_move (Move.mk ⟨0, 4⟩ ⟨1, 5⟩ MoveType.ORDINARY))
      exGame1.turn = some false :=
  C1_legal_noncastle_not_check exGame1 ((get_legal_moves exGame1).getD [])
    (Move.mk ⟨0, 4⟩ ⟨1, 5⟩ MoveType.ORDINARY) (by decide) (by decide) (by decide) (by decide)

/-! ## Claim C2 -/

/-- Claim C2: a castling move appears in get_legal_moves only if the side to
move is not in check, the matching rights flag is set, and every square
strictly between king and rook on the back rank (columns 1, 2, 3 for long;
columns 5, 6 for short) is empty and not attacked by the opponent. -/
theorem C2_castling_preconditions (game : Game) (moves : List Move) (m : Move)
    (h : get_legal_moves game = some moves) (hm : m ∈ moves)
    (hc : m.type = MoveType.LONG_CASTLE ∨ m.type = MoveType.SHORT_CASTLE) :
    is_check game.board game.turn = some false ∧
    (m.type = MoveType.LONG_CASTLE →
      game.long_castling_rights.get game.turn = true ∧
      validCastlingSquare game ⟨castlingRow game, 1⟩ ∧
      validCastlingSquare game ⟨castlingRow game, 2⟩ ∧
      validCastlingSquare game ⟨castlingRow game, 3⟩) ∧
    (m.type = MoveType.SHORT_CASTLE →
      game.short_castling_rights.get game.turn = true ∧
      validCastlingSquare game ⟨castlingRow game, 5⟩ ∧
      validCastlingSquare game ⟨castlingRow game, 6⟩) := by
  obtain ⟨l1, l2, h1, h2, rfl⟩ := legal_moves_decomp h
  have hm2 : m ∈ l2 := by
    rcases List.mem_append.mp hm with hm1 | hm2
    · obtain ⟨hmem, _⟩ := filterNotCheck_mem h1 m hm1
      obtain ⟨sq, piece, _, _, hp⟩ := pseudo_mem hmem
      obtain ⟨_, htype, _⟩ := pseudo_piece_mem hp
      rcases hc with ht | ht <;> rcases htype with h' | h' | h' <;> rw [ht] at h' <;> cases h'
    · exact hm2
  obtain ⟨c, hcheck⟩ := castles_isSome h2
  cases c with
  | true =>
    rw [castles_of_check hcheck, Option.some.injEq] at h2
    rw [← h2] at hm2
    simp at hm2
  | false =>
    refine ⟨hcheck, ?_, ?_⟩
    all_goals
      rw [castles_of_not_check hcheck, Option.some.injEq] at h2
      rw [← h2] at hm2
      intro ht
    · by_cases hcond : game.long_castling_rights.get game.turn = true ∧
          validCastlingSquare game ⟨castlingRow game, 1⟩ ∧
          validCastlingSquare game ⟨castlingRow game, 2⟩ ∧
          validCastlingSquare game ⟨castlingRow game, 3⟩
      · exact hcond
      · exfalso
        rw [if_neg hcond, List.nil_append] at hm2
        by_cases hcond2 : game.short_castling_rights.get game.turn = true ∧
            validCastlingSquare game ⟨castlingRow game, 5⟩ ∧
            validCastlingSquare game ⟨castlingRow game, 6⟩
        · rw [if_pos hcond2] at hm2
          unfold shortCastleMoves at hm2
          rcases List.mem_cons.mp hm2 with rfl | h'
          · cases ht
          · rcases List.mem_cons.mp h' with rfl | h''
            · cases ht
            · simp at h''
        · rw [if_neg hcond2] at hm2
          simp at hm2
    · by_cases hcond : game.short_castling_rights.get game.turn = true ∧
          validCastlingSquare game ⟨castlingRow game, 5⟩ ∧
          validCastlingSquare game ⟨castlingRow game, 6⟩
      · exact hcond
      · exfalso
        rcases List.mem_append.mp hm2 with hml | hms
        · by_cases hcond2 : game.long_castling_rights.get game.turn = true ∧
              validCastlingSquare game ⟨castlingRow game, 1⟩ ∧
              validCastlingSquare game ⟨castlingRow game, 2⟩ ∧
              validCastlingSquare game ⟨castlingRow game, 3⟩
          · rw [if_pos hcond2] at hml
            unfold longCastleMoves at hml
            rcases List.mem_cons.mp hml with rfl | h'
            · cases ht
            · rcases List.mem_cons.mp h' with rfl | h''
              · cases ht
              · rcases List.mem_cons.mp h'' with rfl | h'''
                · cases ht
                · simp at h'''
          · rw [if_neg hcond2] at hml
            simp at hml
        · rw [if_neg hcond] at hms
          simp at hms

/-- Claim C2, witness: the long-castle record of `exGame8` is legal and the
theorem instantiates on it, certifying all long-castling preconditions. -/
theorem C2_witness :
    is_check exGame8.board exGame8.turn = some false ∧
    ((Move.mk ⟨0, 4⟩ ⟨0, 0⟩ MoveType.LONG_CASTLE).type = MoveType.LONG_CASTLE →
      exGame8.long_castling_rights.get exGame8.turn = true ∧
      validCastlingSquare exGame8 ⟨castlingRow exGame8, 1⟩ ∧
      validCastlingSquare exGame8 ⟨castlingRow exGame8, 2⟩ ∧
      validCastlingSquare exGame8 ⟨castlingRow exGame8, 3⟩) ∧
    ((Move.mk ⟨0, 4⟩ ⟨0, 0⟩ MoveType.LONG_CASTLE).type = MoveType.SHORT_CASTLE →
      exGame8.short_castling_rights.get exGame8.turn = true ∧
      validCastlingSquare exGame8 ⟨castlingRow exGame8, 5⟩ ∧
      validCastlingSquare exGame8 ⟨castlingRow exGame8, 6⟩) :=
  C2_castling_preconditions exGame8 ((get_legal_moves exGame8).getD [])
    (Move.mk ⟨0, 4⟩ ⟨0, 0⟩ MoveType.LONG_CASTLE) (by decide) (by decide) (Or.inl rfl)

/-! ## Claim C3 -/

/-- Claim C3: when a game has no legal moves, get_game_result returns the
Result favoring the opponent of the side to move when that side is in
check, and STALEMATE when it is not. -/
theorem C3_no_moves_result (game : Game) (h : get_legal_moves game = some []) :
    get_game_result game = some (some
      (if is_check game.board game.turn = some true
       then (if game.turn = PieceColor.BLACK then Result.WHITE_WIN else Result.BLACK_WIN)
       else Result.STALEMATE)) := by
  obtain ⟨l1, l2, h1, h2, _⟩ := legal_moves_decomp h
  obtain ⟨c, hc⟩ := castles_isSome h2
  unfold get_game_result
  rw [h, hc]
  cases c <;> rfl

/-- Claim C3, witness: in the concrete stalemate position `exGame3` (white
king cornered, not in check, no legal moves) the result is STALEMATE. -/
theorem C3_witness :
    get_game_result exGame3 = some (some
      (if is_check exGame3.board exGame3.turn = some true
       then (if exGame3.turn = PieceColor.BLACK then Result.WHITE_WIN else Result.BLACK_WIN)
       else Result.STALEMATE)) :=
  C3_no_moves_result exGame3 (by decide)

/-! ## Claim C4 -/

/-- The source's boolean insufficient-material test agrees with the
set-equality characterization. -/
theorem is_insufficient_material_iff (pieces : List Piece) :
    is_insufficient_material pieces = true ↔ spec_insufficient_material_eq pieces := by
  unfold is_insufficient_material spec_insufficient_material_eq typeSetEq
  by_cases hlen : pieces.length > 2
  · rw [if_pos hlen]
    simp only [Bool.false_eq_true, false_iff]
    intro hcontra
    have := hcontra.1
    omega
  · rw [if_neg hlen]
    have hlen' : pieces.length ≤ 2 := by omega
    simp only [hlen', true_and, Bool.or_eq_true, Bool.and_eq_true, List.all_eq_true,
      List.mem_map, decide_eq_true_eq, List.mem_cons, List.not_mem_nil, or_false,
      forall_exists_index, and_imp, List.mem_singleton]
    constructor
    · rintro ((h1 | h1) | h1)
      · obtain ⟨ha, hb⟩ := h1
        refine Or.inl ⟨?_, ?_⟩
        · intro p hp
          exact ha p.type p hp rfl
        · obtain ⟨p, hp, hpt⟩ := hb PieceType.KING rfl
          exact ⟨p, hp, hpt⟩
      · obtain ⟨ha, hb⟩ := h1
        refine Or.inr (Or.inl ⟨?_, ?_, ?_⟩)
        · intro p hp
          exact ha p.type p hp rfl
        · obtain ⟨p, hp, hpt⟩ := hb PieceType.KING (Or.inl rfl)
          exact ⟨p, hp, hpt⟩
        · obtain ⟨p, hp, hpt⟩ := hb PieceType.KNIGHT (Or.inr rfl)
          exact ⟨p, hp, hpt⟩
      · obtain ⟨ha, hb⟩ := h1
        refine Or.inr (Or.inr ⟨?_, ?_, ?_⟩)
        · intro p hp
          exact ha p.type p hp rfl
        · obtain ⟨p, hp, hpt⟩ := hb PieceType.KING (Or.inl rfl)
          exact ⟨p, hp, hpt⟩
        · obtain ⟨p, hp, hpt⟩ := hb PieceType.BISHOP (Or.inr rfl)
          exact ⟨p, hp, hpt⟩
    · rintro (⟨ha, p, hp, hpt⟩ | ⟨ha, ⟨p, hp, hpt⟩, ⟨q, hq, hqt⟩⟩ | ⟨ha, ⟨p, hp, hpt⟩, ⟨q, hq, hqt⟩⟩)
      · refine Or.inl (Or.inl ⟨?_, ?_⟩)
        · intro t r hr hrt
          rw [← hrt]
          exact ha r hr
        · intro t ht
          rw [ht]
          exact ⟨p, hp, hpt⟩
      · refine Or.inl (Or.inr ⟨?_, ?_⟩)
        · intro t r hr hrt
          rw [← hrt]
          exact ha r hr
        · rintro t (ht | ht) <;> rw [ht]
          · exact ⟨p, hp, hpt⟩
          · exact ⟨q, hq, hqt⟩
      · refine Or.inr ⟨?_, ?_⟩
        · intro t r hr hrt
          rw [← hrt]
          exact ha r hr
        · rintro t (ht | ht) <;> rw [ht]
          · exact ⟨p, hp, hpt⟩
          · exact ⟨q, hq, hqt⟩

/-- Claim C4, counterexample: in `exGame4` (a lone white king, no black
pieces at all) legal moves exist and both sides satisfy the subset-based
insufficient-material of the claim — black vacuously, its piece-type set
being empty — yet get_game_result reports an ongoing game, because the
source tests set equality, which fails for an empty piece list. -/
theorem C4_counterexample :
    (get_legal_moves exGame4).map (fun l => decide (l ≠ [])) = some true ∧
    spec_insufficient_material (piecesOf exGame4.board PieceColor.WHITE) ∧
    spec_insufficient_material (piecesOf exGame4.board PieceColor.BLACK) ∧
    get_game_result exGame4 = some none := by
  refine ⟨by decide, by decide, by decide, by decide⟩

/-- Claim C4 (amended): with legal moves available, get_game_result returns
INSUFFICIENT_MATERIAL exactly when each side independently has at most 2
pieces with piece-type set equal to {KING}, {KING, KNIGHT}, or
{KING, BISHOP}, and otherwise returns no result (the game is ongoing). -/
theorem C4_insufficient_material_iff (game : Game) (moves : List Move)
    (h : get_legal_moves game = some moves) (hne : moves ≠ []) :
    (get_game_result game = some (some Result.INSUFFICIENT_MATERIAL) ↔
      spec_insufficient_material_eq (piecesOf game.board PieceColor.WHITE) ∧
      spec_insufficient_material_eq (piecesOf game.board PieceColor.BLACK)) ∧
    (get_game_result game = some (some Result.INSUFFICIENT_MATERIAL) ∨
      get_game_result game = some none) := by
  have hne' : moves.isEmpty = false := by
    cases moves with
    | nil => exact absurd rfl hne
    | cons a l => rfl
  have hres : get_game_result game =
      (if (is_insufficient_material (piecesOf game.board PieceColor.WHITE) &&
           is_insufficient_material (piecesOf game.board PieceColor.BLACK)) = true
       then some (some Result.INSUFFICIENT_MATERIAL)
       else some none) := by
    unfold get_game_result
    rw [h]
    simp only [Option.bind_eq_bind, Option.some_bind, hne']
    rfl
  by_cases hw : is_insufficient_material (piecesOf game.board PieceColor.WHITE) = true
  · by_cases hb : is_insufficient_material (piecesOf game.board PieceColor.BLACK) = true
    · have hr : get_game_result game = some (some Result.INSUFFICIENT_MATERIAL) := by
        rw [hres, hw, hb]
        rfl
      rw [hr]
      exact ⟨⟨fun _ => ⟨(is_insufficient_material_iff _).mp hw,
        (is_insufficient_material_iff _).mp hb⟩, fun _ => rfl⟩, Or.inl rfl⟩
    · have hr : get_game_result game = some none := by
        rw [hres, hw, Bool.eq_false_iff.mpr hb]
        rfl
      rw [hr]
      refine ⟨⟨fun hcontra => ?_, fun hsp =>
        absurd ((is_insufficient_material_iff _).mpr hsp.2) hb⟩, Or.inr rfl⟩
      simp at hcontra
  · have hr : get_game_result game = some none := by
      rw [hres, Bool.eq_false_iff.mpr hw]
      rfl
    rw [hr]
    refine ⟨⟨fun hcontra => ?_, fun hsp =>
      absurd ((is_insufficient_material_iff _).mpr hsp.1) hw⟩, Or.inr rfl⟩
    simp at hcontra

/-- Claim C4 (amended), witness: instantiated on `exGame4`, where legal
moves exist and the result is an ongoing game. -/
theorem C4_witness :
    (get_game_result exGame4 = some (some Result.INSUFFICIENT_MATERIAL) ↔
      spec_insufficient_material_eq (piecesOf exGame4.board PieceColor.WHITE) ∧
      spec_insufficient_material_eq (piecesOf exGame4.board PieceColor.BLACK)) ∧
    (get_game_result exGame4 = some (some Result.INSUFFICIENT_MATERIAL) ∨
      get_game_result exGame4 = some none) :=
  C4_insufficient_material_iff exGame4 ((get_legal_moves exGame4).getD [])
    (by decide) (by decide)

/-! ## Claim C6 -/

/-- Claim C6: every pseudo-legal pawn move landing on the pawn end row of
its color (push or capture) is tagged PAWN_PROMOTION; every single-step
push or capture not reaching that row is tagged ORDINARY; a move is tagged
DOUBLE_PAWN_PUSH exactly when it is the two-square advance; every generated
pawn move is a single-step move or the two-square advance; and the three
tags are the only ones produced. -/
theorem C6_pawn_promotion_tagging (color : PieceColor) (start : Square)
    (board : Board) (en_passant : Option Square) (m : Move)
    (hm : m ∈ get_psuedo_legal_moves_for_piece ⟨color, PieceType.PAWN⟩ start board en_passant) :
    (m.type = MoveType.PAWN_PROMOTION ↔ m.endSq.row = pawn_end_row color) ∧
    (m.endSq.row = start.row + pawn_direction color →
      m.endSq.row ≠ pawn_end_row color → m.type = MoveType.ORDINARY) ∧
    (m.type = MoveType.DOUBLE_PAWN_PUSH ↔
      m.endSq = ⟨start.row + pawn_direction color + pawn_direction color, start.column⟩) ∧
    (m.endSq.row = start.row + pawn_direction color ∨
      m.endSq = ⟨start.row + pawn_direction color + pawn_direction color, start.column⟩) ∧
    (m.type = MoveType.ORDINARY ∨ m.type = MoveType.PAWN_PROMOTION ∨
      m.type = MoveType.DOUBLE_PAWN_PUSH) := by
  obtain ⟨hstart, hshape⟩ := pawnMovesFor_mem hm
  have hd : pawn_direction color = 1 ∨ pawn_direction color = -1 := by
    cases color
    · exact Or.inl rfl
    · exact Or.inr rfl
  rcases hshape with ⟨hopp, hrow, ht, hcol⟩ | ⟨hend, hemp, ht⟩ | ⟨hend, hemp, hstartrow, ht⟩
  · have hnotdouble : m.endSq ≠
        ⟨start.row + pawn_direction color + pawn_direction color, start.column⟩ := by
      intro hcontra
      have hrow2 : m.endSq.row = start.row + pawn_direction color + pawn_direction color := by
        rw [hcontra]
      rw [hrow] at hrow2
      rcases hd with hd1 | hd1 <;> rw [hd1] at hrow2 <;> omega
    by_cases hpe : start.row + pawn_direction color = pawn_end_row color
    · rw [if_pos hpe] at ht
      refine ⟨⟨fun _ => by rw [hrow, hpe], fun _ => ht⟩, ?_,
        ⟨fun hdp => (by rw [ht] at hdp; cases hdp),
          fun hcontra => absurd hcontra hnotdouble⟩,
        Or.inl hrow, Or.inr (Or.inl ht)⟩
      intro _ h2
      rw [hrow] at h2
      exact absurd hpe h2
    · rw [if_neg hpe] at ht
      refine ⟨⟨fun hp => (by rw [ht] at hp; cases hp), fun hr => ?_⟩, fun _ _ => ht,
        ⟨fun hdp => (by rw [ht] at hdp; cases hdp),
          fun hcontra => absurd hcontra hnotdouble⟩,
        Or.inl hrow, Or.inl ht⟩
      rw [hrow] at hr
      exact absurd hr hpe
  · have hrow : m.endSq.row = start.row + pawn_direction color := by rw [hend]
    have hnotdouble : m.endSq ≠
        ⟨start.row + pawn_direction color + pawn_direction color, start.column⟩ := by
      intro hcontra
      have hrow2 : m.endSq.row = start.row + pawn_direction color + pawn_direction color := by
        rw [hcontra]
      rw [hrow] at hrow2
      rcases hd with hd1 | hd1 <;> rw [hd1] at hrow2 <;> omega
    by_cases hpe : start.row + pawn_direction color = pawn_end_row color
    · rw [if_pos hpe] at ht
      refine ⟨⟨fun _ => by rw [hrow, hpe], fun _ => ht⟩, ?_,
        ⟨fun hdp => (by rw [ht] at hdp; cases hdp),
          fun hcontra => absurd hcontra hnotdouble⟩,
        Or.inl hrow, Or.inr (Or.inl ht)⟩
      intro _ h2
      rw [hrow] at h2
      exact absurd hpe h2
    · rw [if_neg hpe] at ht
      refine ⟨⟨fun hp => (by rw [ht] at hp; cases hp), fun hr => ?_⟩, fun _ _ => ht,
        ⟨fun hdp => (by rw [ht] at hdp; cases hdp),
          fun hcontra => absurd hcontra hnotdouble⟩,
        Or.inl hrow, Or.inl ht⟩
      rw [hrow] at hr
      exact absurd hr hpe
  · have hrow2 : m.endSq.row = start.row + pawn_direction color + pawn_direction color := by
      rw [hend]
    have hnotend : m.endSq.row ≠ pawn_end_row color := by
      rw [hrow2, hstartrow]
      cases color <;> decide
    refine ⟨⟨fun hp => (by rw [ht] at hp; cases hp), fun hr => absurd hr hnotend⟩, ?_,
      ⟨fun _ => hend, fun _ => ht⟩, Or.inr hend, Or.inr (Or.inr ht)⟩
    intro h1 _
    rw [hrow2] at h1
    rcases hd with hd1 | hd1 <;> rw [hd1] at h1
    · exact absurd h1 (by omega)
    · exact absurd h1 (by omega)

/-- Claim C6, witness: the concrete promotion capture of the pawn on
`exPromoBoard` instantiates the theorem. -/
theorem C6_witness :
    ((Move.mk ⟨6, 3⟩ ⟨7, 4⟩ MoveType.PAWN_PROMOTION).type = MoveType.PAWN_PROMOTION ↔
      (Move.mk ⟨6, 3⟩ ⟨7, 4⟩ MoveType.PAWN_PROMOTION).endSq.row =
        pawn_end_row PieceColor.WHITE) ∧
    ((Move.mk ⟨6, 3⟩ ⟨7, 4⟩ MoveType.PAWN_PROMOTION).endSq.row =
        (⟨6, 3⟩ : Square).row + pawn_direction PieceColor.WHITE →
      (Move.mk ⟨6, 3⟩ ⟨7, 4⟩ MoveType.PAWN_PROMOTION).endSq.row ≠
        pawn_end_row PieceColor.WHITE →
      (Move.mk ⟨6, 3⟩ ⟨7, 4⟩ MoveType.PAWN_PROMOTION).type = MoveType.ORDINARY) ∧
    ((Move.mk ⟨6, 3⟩ ⟨7, 4⟩ MoveType.PAWN_PROMOTION).type = MoveType.DOUBLE_PAWN_PUSH ↔
      (Move.mk ⟨6, 3⟩ ⟨7, 4⟩ MoveType.PAWN_PROMOTION).endSq =
        ⟨(⟨6, 3⟩ : Square).row + pawn_direction PieceColor.WHITE +
          pawn_direction PieceColor.WHITE, (⟨6, 3⟩ : Square).column⟩) ∧
    ((Move.mk ⟨6, 3⟩ ⟨7, 4⟩ MoveType.PAWN_PROMOTION).endSq.row =
        (⟨6, 3⟩ : Square).row + pawn_direction PieceColor.WHITE ∨
      (Move.mk ⟨6, 3⟩ ⟨7, 4⟩ MoveType.PAWN_PROMOTION).endSq =
        ⟨(⟨6, 3⟩ : Square).row + pawn_direction PieceColor.WHITE +
          pawn_direction PieceColor.WHITE, (⟨6, 3⟩ : Square).column⟩) ∧
    ((Move.mk ⟨6, 3⟩ ⟨7, 4⟩ MoveType.PAWN_PROMOTION).type = MoveType.ORDINARY ∨
      (Move.mk ⟨6, 3⟩ ⟨7, 4⟩ MoveType.PAWN_PROMOTION).type = MoveType.PAWN_PROMOTION ∨
      (Move.mk ⟨6, 3⟩ ⟨7, 4⟩ MoveType.PAWN_PROMOTION).type = MoveType.DOUBLE_PAWN_PUSH) :=
  C6_pawn_promotion_tagging PieceColor.WHITE ⟨6, 3⟩ exPromoBoard none
    (Move.mk ⟨6, 3⟩ ⟨7, 4⟩ MoveType.PAWN_PROMOTION) (by decide)

/-! ## Claim C8 -/

/-- Claim C8: when the long-castling preconditions hold, the legal-move list
contains exactly the three LONG_CASTLE records from the back-rank column-4
square to columns 0, 1 and 2; when the short-castling preconditions hold it
contains exactly the two SHORT_CASTLE records to columns 6 and 7. -/
theorem C8_castle_move_records (game : Game) (moves : List Move)
    (h : get_legal_moves game = some moves)
    (hc : is_check game.board game.turn = some false) :
    (game.long_castling_rights.get game.turn = true ∧
     validCastlingSquare game ⟨castlingRow game, 1⟩ ∧
     validCastlingSquare game ⟨castlingRow game, 2⟩ ∧
     validCastlingSquare game ⟨castlingRow game, 3⟩ →
      moves.filter (fun m => decide (m.type = MoveType.LONG_CASTLE)) =
        longCastleMoves (castlingRow game)) ∧
    (game.short_castling_rights.get game.turn = true ∧
     validCastlingSquare game ⟨castlingRow game, 5⟩ ∧
     validCastlingSquare game ⟨castlingRow game, 6⟩ →
      moves.filter (fun m => decide (m.type = MoveType.SHORT_CASTLE)) =
        shortCastleMoves (castlingRow game)) := by
  obtain ⟨l1, l2, h1, h2, rfl⟩ := legal_moves_decomp h
  have hl1long : l1.filter (fun m => decide (m.type = MoveType.LONG_CASTLE)) = [] := by
    rw [List.filter_eq_nil_iff]
    intro m hm
    obtain ⟨hmem, _⟩ := filterNotCheck_mem h1 m hm
    obtain ⟨sq, piece, _, _, hp⟩ := pseudo_mem hmem
    obtain ⟨_, htype, _⟩ := pseudo_piece_mem hp
    rcases htype with h' | h' | h' <;> simp [h']
  have hl1short : l1.filter (fun m => decide (m.type = MoveType.SHORT_CASTLE)) = [] := by
    rw [List.filter_eq_nil_iff]
    intro m hm
    obtain ⟨hmem, _⟩ := filterNotCheck_mem h1 m hm
    obtain ⟨sq, piece, _, _, hp⟩ := pseudo_mem hmem
    obtain ⟨_, htype, _⟩ := pseudo_piece_mem hp
    rcases htype with h' | h' | h' <;> simp [h']
  rw [castles_of_not_check hc, Option.some.injEq] at h2
  constructor
  · intro hlong
    have hl2 : l2 = longCastleMoves (castlingRow game) ++
        (if game.short_castling_rights.get game.turn = true ∧
            validCastlingSquare game ⟨castlingRow game, 5⟩ ∧
            validCastlingSquare game ⟨castlingRow game, 6⟩
         then shortCastleMoves (castlingRow game) else []) := by
      rw [← h2, if_pos hlong]
    rw [List.filter_append, hl1long, List.nil_append, hl2, List.filter_append]
    by_cases hs : game.short_castling_rights.get game.turn = true ∧
        validCastlingSquare game ⟨castlingRow game, 5⟩ ∧
        validCastlingSquare game ⟨castlingRow game, 6⟩
    · rw [if_pos hs]
      rfl
    · rw [if_neg hs]
      rfl
  · intro hshort
    have hl2 : l2 = (if game.long_castling_rights.get game.turn = true ∧
            validCastlingSquare game ⟨castlingRow game, 1⟩ ∧
            validCastlingSquare game ⟨castlingRow game, 2⟩ ∧
            validCastlingSquare game ⟨castlingRow game, 3⟩
         then longCastleMoves (castlingRow game) else []) ++
        shortCastleMoves (castlingRow game) := by
      rw [← h2, if_pos hshort]
    rw [List.filter_append, hl1short, List.nil_append, hl2, List.filter_append]
    by_cases hl : game.long_castling_rights.get game.turn = true ∧
        validCastlingSquare game ⟨castlingRow game, 1⟩ ∧
        validCastlingSquare game ⟨castlingRow game, 2⟩ ∧
        validCastlingSquare game ⟨castlingRow game, 3⟩
    · rw [if_pos hl]
      rfl
    · rw [if_neg hl]
      rfl

/-- Claim C8, witness: in `exGame8` both precondition bundles hold and the
filtered castle records are exactly the three long and two short ones. -/
theorem C8_witness :
    (exGame8.long_castling_rights.get exGame8.turn = true ∧
     validCastlingSquare exGame8 ⟨castlingRow exGame8, 1⟩ ∧
     validCastlingSquare exGame8 ⟨castlingRow exGame8, 2⟩ ∧
     validCastlingSquare exGame8 ⟨castlingRow exGame8, 3⟩ →
      ((get_legal_moves exGame8).getD []).filter
          (fun m => decide (m.type = MoveType.LONG_CASTLE)) =
        longCastleMoves (castlingRow exGame8)) ∧
    (exGame8.short_castling_rights.get exGame8.turn = true ∧
     validCastlingSquare exGame8 ⟨castlingRow exGame8, 5⟩ ∧
     validCastlingSquare exGame8 ⟨castlingRow exGame8, 6⟩ →
      ((get_legal_moves exGame8).getD []).filter
          (fun m => decide (m.type = MoveType.SHORT_CASTLE)) =
        shortCastleMoves (castlingRow exGame8)) :=
  C8_castle_move_records exGame8 ((get_legal_moves exGame8).getD [])
    (by decide) (by decide)

/-! ## Claim C10 -/

/-- Claim C10: the castling preconditions never mention the contents of the
back-rank column-4 square or the rook corner squares; whenever they hold
(no check, rights flag, in-between squares empty and unattacked), the
castling records are in the legal-move list, with no hypothesis about which
piece, if any, stands on those squares. -/
theorem C10_castling_ignores_home_squares (game : Game) (moves : List Move)
    (h : get_legal_moves game = some moves)
    (hc : is_check game.board game.turn = some false) :
    (game.long_castling_rights.get game.turn = true ∧
     validCastlingSquare game ⟨castlingRow game, 1⟩ ∧
     validCastlingSquare game ⟨castlingRow game, 2⟩ ∧
     validCastlingSquare game ⟨castlingRow game, 3⟩ →
      ∀ m ∈ longCastleMoves (castlingRow game), m ∈ moves) ∧
    (game.short_castling_rights.get game.turn = true ∧
     validCastlingSquare game ⟨castlingRow game, 5⟩ ∧
     validCastlingSquare game ⟨castlingRow game, 6⟩ →
      ∀ m ∈ shortCastleMoves (castlingRow game), m ∈ moves) := by
  obtain ⟨l1, l2, h1, h2, rfl⟩ := legal_moves_decomp h
  rw [castles_of_not_check hc, Option.some.injEq] at h2
  constructor
  · intro hlong m hm
    refine List.mem_append_right l1 ?_
    rw [← h2]
    refine List.mem_append_left _ ?_
    rw [if_pos hlong]
    exact hm
  · intro hshort m hm
    refine List.mem_append_right l1 ?_
    rw [← h2]
    refine List.mem_append_right _ ?_
    rw [if_pos hshort]
    exact hm

/-- Claim C10, witness: in `exGame8` no piece at all stands on the column-4
back-rank square or the corners, yet all five castling records are legal. -/
theorem C10_witness :
    (exGame8.long_castling_rights.get exGame8.turn = true ∧
     validCastlingSquare exGame8 ⟨castlingRow exGame8, 1⟩ ∧
     validCastlingSquare exGame8 ⟨castlingRow exGame8, 2⟩ ∧
     validCastlingSquare exGame8 ⟨castlingRow exGame8, 3⟩ →
      ∀ m ∈ longCastleMoves (castlingRow exGame8), m ∈ (get_legal_moves exGame8).getD []) ∧
    (exGame8.short_castling_rights.get exGame8.turn = true ∧
     validCastlingSquare exGame8 ⟨castlingRow exGame8, 5⟩ ∧
     validCastlingSquare exGame8 ⟨castlingRow exGame8, 6⟩ →
      ∀ m ∈ shortCastleMoves (castlingRow exGame8), m ∈ (get_legal_moves exGame8).getD []) :=
  C10_castling_ignores_home_squares exGame8 ((get_legal_moves exGame8).getD [])
    (by decide) (by decide)

/-! ## Claim C9 -/

/-- Step counts along a nonzero direction determine the reached square
injectively. -/
theorem raySquare_inj (d : Int × Int) (start : Square) (hd : d ≠ (0, 0))
    {a b : Nat} (h : raySquare d start a = raySquare d start b) : a = b := by
  unfold raySquare at h
  injection h with h1 h2
  have h1' : d.1 * (a : Int) = d.1 * (b : Int) := by omega
  have h2' : d.2 * (a : Int) = d.2 * (b : Int) := by omega
  have hd' : d.1 ≠ 0 ∨ d.2 ≠ 0 := by
    by_contra hcontra
    push_neg at hcontra
    exact hd (Prod.ext hcontra.1 hcontra.2)
  rcases hd' with h0 | h0
  · have := mul_left_cancel₀ h0 h1'
    exact_mod_cast this
  · have := mul_left_cancel₀ h0 h2'
    exact_mod_cast this

/-- When the ray loop exhausts its fuel, every square it stepped over is in
the empty-square list. -/
theorem rayAux_none_mem (d : Int × Int) (start : Square) (empty opp : List Square) :
    ∀ f k, rayAux d start empty opp f k = none →
      ∀ i < f, raySquare d start (k + i) ∈ empty := by
  intro f
  induction f with
  | zero =>
    intro k _ i hi
    omega
  | succ f ih =>
    intro k h i hi
    rw [rayAux] at h
    by_cases h1 : raySquare d start k ∈ empty
    · simp only [if_pos h1, Option.map_eq_none'] at h
      cases i with
      | zero => simpa using h1
      | succ i =>
        have := ih (k + 1) h i (by omega)
        have harith : k + 1 + i = k + (i + 1) := by omega
        rwa [harith] at this
    · by_cases h2 : raySquare d start k ∈ opp
      · simp [if_neg h1, if_pos h2] at h
      · simp [if_neg h1, if_neg h2] at h

/-- The fuel bound of the ray wrapper suffices: with one unit of fuel more
than the number of empty squares the loop always stops. -/
theorem rayAux_isSome (d : Int × Int) (start : Square) (empty opp : List Square)
    (hd : d ≠ (0, 0)) :
    (rayAux d start empty opp (empty.length + 1) 1).isSome := by
  cases hres : rayAux d start empty opp (empty.length + 1) 1 with
  | some l => rfl
  | none =>
    exfalso
    have hmem := rayAux_none_mem d start empty opp (empty.length + 1) 1 hres
    set lst := (List.range (empty.length + 1)).map (fun i => raySquare d start (1 + i)) with hlst
    have hnodup : lst.Nodup := by
      refine List.Nodup.map ?_ (List.nodup_range _)
      intro a b hab
      have := raySquare_inj d start hd hab
      omega
    have hsub : lst ⊆ empty := by
      intro s hs
      obtain ⟨i, hi, rfl⟩ := List.mem_map.mp hs
      exact hmem i (List.mem_range.mp hi)
    have hlen : lst.length ≤ empty.length :=
      (List.subperm_of_subset hnodup hsub).length_le
    rw [hlst, List.length_map, List.length_range] at hlen
    omega

/-- Extra fuel does not change a ray loop run that already stopped. -/
theorem rayAux_mono (d : Int × Int) (start : Square) (empty opp : List Square) :
    ∀ f k l e, rayAux d start empty opp f k = some l →
      rayAux d start empty opp (f + e) k = some l := by
  intro f
  induction f with
  | zero =>
    intro k l e h
    simp [rayAux] at h
  | succ f ih =>
    intro k l e h
    have harith : f + 1 + e = (f + e) + 1 := by omega
    rw [harith, rayAux]
    rw [rayAux] at h
    by_cases h1 : raySquare d start k ∈ empty
    · rw [if_pos h1] at h ⊢
      rw [Option.map_eq_some'] at h
      obtain ⟨l', hl', rfl⟩ := h
      rw [ih (k + 1) l' e hl']
      rfl
    · by_cases h2 : raySquare d start k ∈ opp
      · rw [if_neg h1, if_pos h2] at h ⊢
        exact h
      · rw [if_neg h1, if_neg h2] at h ⊢
        exact h

/-- Claim C9: the ray-casting loop of
`__get_ranged_piece_psuedo_legal_moves_in_direction` halts for every nonzero
direction, start square and square lists: the run with the wrapper's fuel
bound stops (is `some`), and any amount of extra fuel yields the same
result, so the bounded definition computes the source's unbounded while
loop and every operation built on it is total. -/
theorem C9_ray_terminates (d : Int × Int) (start : Square) (empty opp : List Square)
    (hd : d ≠ (0, 0)) (extra : Nat) :
    rayAux d start empty opp (empty.length + 1 + extra) 1 =
      rayAux d start empty opp (empty.length + 1) 1 ∧
    (rayAux d start empty opp (empty.length + 1) 1).isSome := by
  have hs := rayAux_isSome d start empty opp hd
  obtain ⟨l, hl⟩ := Option.isSome_iff_exists.mp hs
  rw [hl]
  exact ⟨rayAux_mono d start empty opp (empty.length + 1) 1 l extra hl, rfl⟩

/-- Claim C9, witness: concrete instantiation on the north ray from the
corner of an empty board model. -/
theorem C9_witness :
    rayAux (1, 0) ⟨0, 0⟩ [] [] (([] : List Square).length + 1 + 37) 1 =
      rayAux (1, 0) ⟨0, 0⟩ [] [] (([] : List Square).length + 1) 1 ∧
    (rayAux (1, 0) ⟨0, 0⟩ [] [] (([] : List Square).length + 1) 1).isSome :=
  C9_ray_terminates (1, 0) ⟨0, 0⟩ [] [] (by decide) 37

/-! ## Board and king-location lemmas -/

/-- The opposing color is never the color itself. -/
theorem opposing_color_ne (c : PieceColor) : PieceColor.opposing_color c ≠ c := by
  cases c <;> decide

/-- Membership in the squares-with-pieces list is exactly having an entry of
the color. -/
theorem mem_squares_with_iff (b : Board) (c : PieceColor) (sq : Square) :
    sq ∈ b.get_squares_with_pieces c ↔ ∃ p, (sq, p) ∈ b.entries ∧ p.color = c := by
  unfold Board.get_squares_with_pieces
  constructor
  · intro h
    obtain ⟨e, he, hesq⟩ := List.mem_map.mp h
    rw [List.mem_filter] at he
    refine ⟨e.2, ?_, of_decide_eq_true he.2⟩
    have heta : (sq, e.2) = e := by rw [← hesq]
    rw [heta]
    exact he.1
  · rintro ⟨p, hp, hc⟩
    refine List.mem_map.mpr ⟨(sq, p), ?_, rfl⟩
    rw [List.mem_filter]
    exact ⟨hp, decide_eq_true hc⟩

/-- A successful board lookup comes from an entry. -/
theorem get_eq_some_mem {b : Board} {sq : Square} {p : Piece}
    (h : b.get sq = some p) : (sq, p) ∈ b.entries := by
  unfold Board.get at h
  rw [Option.map_eq_some'] at h
  obtain ⟨e, he, hp⟩ := h
  have hmem := List.mem_of_find?_eq_some he
  have hpred := List.find?_some he
  have hesq : e.1 = sq := of_decide_eq_true hpred
  have heta : (sq, p) = e := by rw [← hesq, ← hp]
  rw [heta]
  exact hmem

/-- On a well-formed board, lookup of an entry's square returns that
entry's piece. -/
theorem get_of_mem_wf {b : Board} (hWF : b.WF) {sq : Square} {p : Piece}
    (h : (sq, p) ∈ b.entries) : b.get sq = some p := by
  unfold Board.get
  have hsome : (b.entries.find? (fun e => decide (e.1 = sq))).isSome :=
    List.find?_isSome.mpr ⟨(sq, p), h, decide_eq_true rfl⟩
  obtain ⟨e, he⟩ := Option.isSome_iff_exists.mp hsome
  have hmem := List.mem_of_find?_eq_some he
  have hpred := List.find?_some he
  have hesq : e.1 = sq := of_decide_eq_true hpred
  have heq : e = (sq, p) := List.inj_on_of_nodup_map hWF.1 hmem h (by rw [hesq])
  rw [he, heq]
  rfl

/-- A populated square is not among the empty squares. -/
theorem not_mem_empty_of_get_some {b : Board} {sq : Square} {p : Piece}
    (h : b.get sq = some p) : sq ∉ b.get_empty_squares := by
  intro hmem
  unfold Board.get_empty_squares at hmem
  rw [List.mem_filter, h] at hmem
  simp at hmem

/-- The king-locating fold returns nothing exactly when the accumulator was
empty and no scanned square holds a king. -/
theorem king_foldl_none_iff (b : Board) (l : List Square) :
    ∀ acc, (l.foldl (kingStep b) acc = none ↔
      (acc = none ∧ ∀ sq ∈ l, ∀ p, b.get sq = some p → p.type ≠ PieceType.KING)) := by
  induction l with
  | nil =>
    intro acc
    simp
  | cons a t ih =>
    intro acc
    rw [List.foldl_cons, ih]
    cases hget : b.get a with
    | none =>
      have hstep : kingStep b acc a = acc := by
        simp [kingStep, hget]
      rw [hstep]
      constructor
      · rintro ⟨h1, h2⟩
        refine ⟨h1, fun sq hsq p hp => ?_⟩
        rcases List.mem_cons.mp hsq with rfl | hsq'
        · rw [hget] at hp
          cases hp
        · exact h2 sq hsq' p hp
      · rintro ⟨h1, h2⟩
        exact ⟨h1, fun sq hsq p hp => h2 sq (List.mem_cons_of_mem a hsq) p hp⟩
    | some piece =>
      by_cases hk : piece.type = PieceType.KING
      · have hstep : kingStep b acc a = some a := by
          simp [kingStep, hget, hk]
        rw [hstep]
        constructor
        · rintro ⟨h1, _⟩
          cases h1
        · rintro ⟨_, h2⟩
          exact absurd hk (h2 a (List.mem_cons_self a t) piece hget)
      · have hstep : kingStep b acc a = acc := by
          simp [kingStep, hget, hk]
        rw [hstep]
        constructor
        · rintro ⟨h1, h2⟩
          refine ⟨h1, fun sq hsq p hp => ?_⟩
          rcases List.mem_cons.mp hsq with rfl | hsq'
          · rw [hget] at hp
            injection hp with hp'
            rw [← hp']
            exact hk
          · exact h2 sq hsq' p hp
        · rintro ⟨h1, h2⟩
          exact ⟨h1, fun sq hsq p hp => h2 sq (List.mem_cons_of_mem a hsq) p hp⟩

/-- When the king-locating fold finds a square, that square was scanned and
holds a king (unless it was already the accumulator). -/
theorem king_foldl_some (b : Board) (l : List Square) :
    ∀ acc ks, l.foldl (kingStep b) acc = some ks →
      (ks ∈ l ∧ ∃ p, b.get ks = some p ∧ p.type = PieceType.KING) ∨ acc = some ks := by
  induction l with
  | nil =>
    intro acc ks h
    exact Or.inr h
  | cons a t ih =>
    intro acc ks h
    rw [List.foldl_cons] at h
    rcases ih (kingStep b acc a) ks h with h' | h'
    · exact Or.inl ⟨List.mem_cons_of_mem a h'.1, h'.2⟩
    · cases hget : b.get a with
      | none =>
        have hstep : kingStep b acc a = acc := by
          simp [kingStep, hget]
        rw [hstep] at h'
        exact Or.inr h'
      | some piece =>
        by_cases hk : piece.type = PieceType.KING
        · have hstep : kingStep b acc a = some a := by
            simp [kingStep, hget, hk]
          rw [hstep] at h'
          injection h' with h''
          subst h''
          exact Or.inl ⟨List.mem_cons_self a t, piece, hget, hk⟩
        · have hstep : kingStep b acc a = acc := by
            simp [kingStep, hget, hk]
          rw [hstep] at h'
          exact Or.inr h'

/-- A scanned square holding a king forces the king-locating loop to find
something. -/
theorem find_king_ne_none_of_get (b : Board) (c : PieceColor) (sq : Square) (p : Piece)
    (hmem : sq ∈ b.get_squares_with_pieces c) (hget : b.get sq = some p)
    (hk : p.type = PieceType.KING) : find_king_square b c ≠ none := by
  unfold find_king_square
  intro h
  rw [king_foldl_none_iff] at h
  exact h.2 sq hmem p hget hk

/-- On a well-formed board, the king search fails exactly when no entry is a
king of the color. -/
theorem find_king_none_iff (b : Board) (c : PieceColor) (hWF : b.WF) :
    find_king_square b c = none ↔
      ∀ e ∈ b.entries, ¬(e.2.color = c ∧ e.2.type = PieceType.KING) := by
  unfold find_king_square
  rw [king_foldl_none_iff]
  constructor
  · rintro ⟨_, h⟩ e he ⟨hec, hek⟩
    have heta : (e.1, e.2) = e := rfl
    have hsq : e.1 ∈ b.get_squares_with_pieces c :=
      (mem_squares_with_iff b c e.1).mpr ⟨e.2, by rw [heta]; exact he, hec⟩
    have hget : b.get e.1 = some e.2 := get_of_mem_wf hWF (by rw [heta]; exact he)
    exact h e.1 hsq e.2 hget hek
  · intro h
    refine ⟨rfl, fun sq hsq p hget hk => ?_⟩
    exact h (sq, p) (get_eq_some_mem hget) ⟨by
      obtain ⟨q, hq, hqc⟩ := (mem_squares_with_iff b c sq).mp hsq
      have hgq := get_of_mem_wf hWF hq
      rw [hget] at hgq
      injection hgq with hpq
      rw [hpq]
      exact hqc, hk⟩

/-- The square returned by the king search was scanned and holds a king. -/
theorem find_king_some_spec (b : Board) (c : PieceColor) (ks : Square)
    (h : find_king_square b c = some ks) :
    ks ∈ b.get_squares_with_pieces c ∧
      ∃ p, b.get ks = some p ∧ p.type = PieceType.KING := by
  unfold find_king_square at h
  rcases king_foldl_some b _ none ks h with h' | h'
  · exact h'
  · cases h'

/-- The check test errors exactly when the king search fails. -/
theorem is_check_eq_none_iff (b : Board) (c : PieceColor) :
    is_check b c = none ↔ find_king_square b c = none := by
  unfold is_check
  cases h : find_king_square b c <;> simp

/-! ## Simulated-board lemmas -/

/-- Looking up the destination square on the simulated board finds the moved
piece. -/
theorem sim_get_endSq (g : Game) (m : Move) (p : Piece)
    (hp : g.board.get m.start = some p) :
    (g.simulate_move m).get m.endSq = some p := by
  unfold Game.simulate_move
  rw [hp]
  unfold Board.get
  rw [List.find?_append]
  have hfil : ((g.board.entries.filter
      (fun e => decide (e.1 ≠ m.start) && decide (e.1 ≠ m.endSq))).find?
        (fun e => decide (e.1 = m.endSq))) = none := by
    rw [List.find?_eq_none]
    intro e he
    rw [List.mem_filter] at he
    have h2 := he.2
    simp only [Bool.and_eq_true, decide_eq_true_eq] at h2
    simp only [decide_eq_true_eq]
    exact h2.2
  rw [hfil]
  simp [List.find?]

/-- Filtering out two other keys does not change an association-list
search for a key distinct from both. -/
theorem assoc_find_filter (l : List (Square × Piece)) (sq s t : Square)
    (hs : sq ≠ s) (ht : sq ≠ t) :
    ((l.filter (fun e => decide (e.1 ≠ s) && decide (e.1 ≠ t))).find?
        (fun e => decide (e.1 = sq))) =
      l.find? (fun e => decide (e.1 = sq)) := by
  induction l with
  | nil => rfl
  | cons a rest ih =>
    by_cases ha : a.1 = sq
    · have hpos : decide (a.1 = sq) = true := decide_eq_true ha
      have hfa : (decide (a.1 ≠ s) && decide (a.1 ≠ t)) = true := by
        rw [ha]
        simp [hs, ht]
      simp only [List.filter_cons, hfa, if_true, List.find?_cons, hpos]
    · have hneg : decide (a.1 = sq) = false := by simp [ha]
      by_cases hfa : (decide (a.1 ≠ s) && decide (a.1 ≠ t)) = true
      · simp only [List.filter_cons, hfa, if_true, List.find?_cons, hneg]
        exact ih
      · have hfa2 : (decide (a.1 ≠ s) && decide (a.1 ≠ t)) = false := by
          simpa using hfa
        simp only [List.filter_cons, hfa2, Bool.false_eq_true, if_false,
          List.find?_cons, hneg]
        exact ih

/-- Lookup of a square other than the move's start and end squares is
unchanged by the simulation. -/
theorem sim_get_other (g : Game) (m : Move) (sq : Square)
    (hs : sq ≠ m.start) (he : sq ≠ m.endSq) :
    (g.simulate_move m).get sq = g.board.get sq := by
  unfold Game.simulate_move
  cases hg : g.board.get m.start with
  | none =>
    unfold Board.get
    rw [List.find?_append, assoc_find_filter g.board.entries sq m.start m.endSq hs he]
    simp
  | some p =>
    unfold Board.get
    rw [List.find?_append, assoc_find_filter g.board.entries sq m.start m.endSq hs he]
    have hne : decide ((m.endSq, p).1 = sq) = false := by
      simp only [decide_eq_false_iff_not]
      intro hcontra
      exact he hcontra.symm
    have hnone : List.find? (fun e => decide (e.1 = sq)) [(m.endSq, p)] = none := by
      simp only [List.find?_cons, hne]
      rfl
    rw [hnone]
    cases g.board.entries.find? (fun e => decide (e.1 = sq)) <;> rfl

/-- Simulating any pseudo-legal move keeps a king of the side to move on
the board, provided the board is well formed and the en-passant target is
not the king's square. -/
theorem sim_king_present (g : Game) (hWF : g.board.WF) (ks : Square)
    (hks : find_king_square g.board g.turn = some ks)
    (hep : g.en_passant ≠ some ks)
    (m : Move) (hm : m ∈ get_psuedo_legal_moves g) :
    find_king_square (g.simulate_move m) g.turn ≠ none := by
  obtain ⟨hksmem, kp, hkget, hktype⟩ := find_king_some_spec g.board g.turn ks hks
  obtain ⟨q, hq, hqc⟩ := (mem_squares_with_iff _ _ _).mp hksmem
  have hgq := get_of_mem_wf hWF hq
  rw [hkget] at hgq
  injection hgq with hkq
  have hkcolor : kp.color = g.turn := by rw [hkq]; exact hqc
  obtain ⟨sq, piece, hsqmem, hsqget, hmp⟩ := pseudo_mem hm
  obtain ⟨q2, hq2, hq2c⟩ := (mem_squares_with_iff _ _ _).mp hsqmem
  have hgq2 := get_of_mem_wf hWF hq2
  rw [hsqget] at hgq2
  injection hgq2 with hpq2
  have hpcolor : piece.color = g.turn := by rw [hpq2]; exact hq2c
  obtain ⟨hmstart, _, hmend⟩ := pseudo_piece_mem hmp
  have hkend : m.endSq ≠ ks := by
    intro heq
    rcases hmend with hcase | hcase | hcase
    · rw [heq] at hcase
      exact not_mem_empty_of_get_some hkget hcase
    · rw [heq] at hcase
      obtain ⟨q3, hq3, hq3c⟩ := (mem_squares_with_iff _ _ _).mp hcase
      have hgq3 := get_of_mem_wf hWF hq3
      rw [hkget] at hgq3
      injection hgq3 with hkq3
      rw [← hkq3] at hq3c
      rw [hpcolor] at hq3c
      rw [hkcolor] at hq3c
      exact opposing_color_ne g.turn hq3c.symm
    · rw [heq] at hcase
      exact hep hcase
  by_cases hstart : m.start = ks
  · have hget' : (g.simulate_move m).get m.endSq = some kp :=
      sim_get_endSq g m kp (by rwa [hstart])
    have hmem' : m.endSq ∈ (g.simulate_move m).get_squares_with_pieces g.turn :=
      (mem_squares_with_iff _ _ _).mpr ⟨kp, get_eq_some_mem hget', hkcolor⟩
    exact find_king_ne_none_of_get _ _ m.endSq kp hmem' hget' hktype
  · have hget' : (g.simulate_move m).get ks = some kp := by
      rw [sim_get_other g m ks (fun hcontra => hstart hcontra.symm)
        (fun hcontra => hkend hcontra.symm)]
      exact hkget
    have hmem' : ks ∈ (g.simulate_move m).get_squares_with_pieces g.turn :=
      (mem_squares_with_iff _ _ _).mpr ⟨kp, get_eq_some_mem hget', hkcolor⟩
    exact find_king_ne_none_of_get _ _ ks kp hmem' hget' hktype

/-- The simulate-and-test filter succeeds when every check test does. -/
theorem filterNotCheck_ne_none (g : Game) (l : List Move)
    (h : ∀ m ∈ l, is_check (g.simulate_move m) g.turn ≠ none) :
    filterNotCheck g l ≠ none := by
  induction l with
  | nil => simp [filterNotCheck]
  | cons a rest ih =>
    unfold filterNotCheck
    cases hc : is_check (g.simulate_move a) g.turn with
    | none => exact absurd hc (h a (List.mem_cons_self a rest))
    | some c =>
      cases hrest : filterNotCheck g rest with
      | none => exact absurd hrest (ih (fun m hm => h m (List.mem_cons_of_mem a hm)))
      | some others =>
        cases c <;> simp

/-- Castling generation succeeds whenever the check test does. -/
theorem castles_ne_none (g : Game) (c : Bool)
    (hc : is_check g.board g.turn = some c) : get_castling_moves g ≠ none := by
  cases c
  · rw [castles_of_not_check hc]
    simp
  · rw [castles_of_check hc]
    simp

/-- Legal-move generation succeeds when both phases do. -/
theorem legal_ne_none (g : Game)
    (hfilter : filterNotCheck g (get_psuedo_legal_moves g) ≠ none)
    (hcast : get_castling_moves g ≠ none) : get_legal_moves g ≠ none := by
  unfold get_legal_moves
  cases h1 : filterNotCheck g (get_psuedo_legal_moves g) with
  | none => exact absurd h1 hfilter
  | some l1 =>
    cases h2 : get_castling_moves g with
    | none => exact absurd h2 hcast
    | some l2 => simp

/-- Result classification succeeds when legal-move generation and the check
test do. -/
theorem result_ne_none (g : Game) (hlegal : get_legal_moves g ≠ none)
    (hcheck : is_check g.board g.turn ≠ none) : get_game_result g ≠ none := by
  unfold get_game_result
  cases hl : get_legal_moves g with
  | none => exact absurd hl hlegal
  | some legal =>
    cases hc : is_check g.board g.turn with
    | none => exact absurd hc hcheck
    | some c =>
      simp only [Option.bind_eq_bind, Option.some_bind]
      by_cases he : legal.isEmpty = true
      · rw [if_pos he]
        cases c <;> simp
      · rw [if_neg he]
        by_cases hins : (is_insufficient_material (piecesOf g.board PieceColor.WHITE) &&
            is_insufficient_material (piecesOf g.board PieceColor.BLACK)) = true
        · rw [if_pos hins]
          simp
        · rw [if_neg hins]
          simp

/-! ## Claim C5 -/

/-- Claim C5, counterexample: `exGame5` has its white king on the board
(the king search succeeds and `is_check` answers without error), yet
`get_legal_moves` and `get_game_result` fail, because the en-passant target
is the king's own square: simulating the pawn's en-passant capture removes
the king, and the per-move check test raises BoardMissingKing.  So an input
other than a board missing the side to move's king makes the public
operations fail, refuting the last part of the claim. -/
theorem C5_counterexample :
    find_king_square exGame5.board exGame5.turn = some ⟨5, 5⟩ ∧
    is_check exGame5.board exGame5.turn = some false ∧
    get_legal_moves exGame5 = none ∧
    get_game_result exGame5 = none := by
  refine ⟨by decide, by decide, by decide, by decide⟩

/-- Claim C5 (amended): on well-formed boards, is_check errors exactly when
no king of the color is on the board; the error propagates through
get_legal_moves and get_game_result when the side to move's king is
missing; and when that king is present, no other input makes the three
public operations fail — provided the en-passant target, when set, is not
the king's own square (otherwise simulating the pawn capture onto it
removes the king and the per-move check test raises the error, as the
counterexample shows). -/
theorem C5_missing_king_error (b : Board) (c : PieceColor) (g : Game)
    (hWF : b.WF) (hgWF : g.board.WF)
    (hep : g.en_passant.isSome = true →
      g.en_passant ≠ find_king_square g.board g.turn) :
    (is_check b c = none ↔
      ∀ e ∈ b.entries, ¬(e.2.color = c ∧ e.2.type = PieceType.KING)) ∧
    ((∀ e ∈ g.board.entries, ¬(e.2.color = g.turn ∧ e.2.type = PieceType.KING)) →
      get_legal_moves g = none ∧ get_game_result g = none) ∧
    ((∃ e ∈ g.board.entries, e.2.color = g.turn ∧ e.2.type = PieceType.KING) →
      (get_legal_moves g).isSome = true ∧ (get_game_result g).isSome = true) := by
  refine ⟨?_, ?_, ?_⟩
  · rw [is_check_eq_none_iff]
    exact find_king_none_iff b c hWF
  · intro hnoking
    have hfk : find_king_square g.board g.turn = none :=
      (find_king_none_iff g.board g.turn hgWF).mpr hnoking
    have hchk : is_check g.board g.turn = none :=
      (is_check_eq_none_iff g.board g.turn).mpr hfk
    have hcast : get_castling_moves g = none := by
      unfold get_castling_moves
      rw [hchk]
      rfl
    have hleg : get_legal_moves g = none := by
      unfold get_legal_moves
      cases h1 : filterNotCheck g (get_psuedo_legal_moves g) with
      | none => rfl
      | some l1 =>
        rw [hcast]
        rfl
    refine ⟨hleg, ?_⟩
    unfold get_game_result
    rw [hleg]
    rfl
  · rintro ⟨e, he, hec, hek⟩
    have heta : (e.1, e.2) = e := rfl
    have hmem : e.1 ∈ g.board.get_squares_with_pieces g.turn :=
      (mem_squares_with_iff _ _ _).mpr ⟨e.2, by rw [heta]; exact he, hec⟩
    have hget : g.board.get e.1 = some e.2 := get_of_mem_wf hgWF (by rw [heta]; exact he)
    have hfkne : find_king_square g.board g.turn ≠ none :=
      find_king_ne_none_of_get _ _ e.1 e.2 hmem hget hek
    obtain ⟨ks, hks⟩ := Option.ne_none_iff_exists'.mp hfkne
    have hepks : g.en_passant ≠ some ks := by
      intro hcontra
      have h1 : g.en_passant.isSome = true := by rw [hcontra]; rfl
      exact hep h1 (by rw [hcontra, hks])
    have hallm : ∀ m ∈ get_psuedo_legal_moves g,
        is_check (g.simulate_move m) g.turn ≠ none := by
      intro m hm hnone
      rw [is_check_eq_none_iff] at hnone
      exact sim_king_present g hgWF ks hks hepks m hm hnone
    have hchkne : is_check g.board g.turn ≠ none := by
      intro hnone
      rw [is_check_eq_none_iff] at hnone
      exact hfkne hnone
    obtain ⟨cb, hcb⟩ := Option.ne_none_iff_exists'.mp hchkne
    have hleg := legal_ne_none g (filterNotCheck_ne_none g _ hallm) (castles_ne_none g cb hcb)
    have hres := result_ne_none g hleg hchkne
    exact ⟨Option.ne_none_iff_isSome.mp hleg, Option.ne_none_iff_isSome.mp hres⟩

/-- Claim C5 (amended), witness: instantiated on `exGame1`, whose board is
well formed with both kings present and no en-passant target. -/
theorem C5_witness :
    (is_check exGame1.board PieceColor.WHITE = none ↔
      ∀ e ∈ exGame1.board.entries,
        ¬(e.2.color = PieceColor.WHITE ∧ e.2.type = PieceType.KING)) ∧
    ((∀ e ∈ exGame1.board.entries,
        ¬(e.2.color = exGame1.turn ∧ e.2.type = PieceType.KING)) →
      get_legal_moves exGame1 = none ∧ get_game_result exGame1 = none) ∧
    ((∃ e ∈ exGame1.board.entries,
        e.2.color = exGame1.turn ∧ e.2.type = PieceType.KING) →
      (get_legal_moves exGame1).isSome = true ∧
        (get_game_result exGame1).isSome = true) :=
  C5_missing_king_error exGame1.board PieceColor.WHITE exGame1
    (by decide) (by decide) (by decide)

/-! ## Claim C7 -/

/-- Claim C7: a square is attacked by a color exactly when some entry of
that color contributes it — a pawn contributes precisely its two
diagonal-forward squares filtered to valid coordinates, with no condition
on what occupies them, and every other piece precisely the end squares of
its pseudo-legal moves computed with no en-passant target. -/
theorem C7_attacked_squares_mem (b : Board) (c : PieceColor) (t : Square)
    (hWF : b.WF) :
    t ∈ get_attacked_squares b c ↔
      ∃ e ∈ b.entries, e.2.color = c ∧
        ((e.2.type = PieceType.PAWN ∧ t.is_valid = true ∧
           (t = ⟨e.1.row + pawn_direction e.2.color, e.1.column - 1⟩ ∨
            t = ⟨e.1.row + pawn_direction e.2.color, e.1.column + 1⟩)) ∨
         (e.2.type ≠ PieceType.PAWN ∧
           ∃ m ∈ get_psuedo_legal_moves_for_piece e.2 e.1 b none, m.endSq = t)) := by
  unfold get_attacked_squares
  rw [List.mem_flatMap]
  constructor
  · rintro ⟨sq, hsq, hin⟩
    obtain ⟨q, hq, hqc⟩ := (mem_squares_with_iff b c sq).mp hsq
    have hget : b.get sq = some q := get_of_mem_wf hWF hq
    have hcontrib : attackContribution b sq =
        (if q.type = PieceType.PAWN then
          ([⟨sq.row + pawn_direction q.color, sq.column - 1⟩,
            ⟨sq.row + pawn_direction q.color, sq.column + 1⟩] : List Square).filter
            (fun s => s.is_valid)
        else (get_psuedo_legal_moves_for_piece q sq b none).map (·.endSq)) := by
      unfold attackContribution
      rw [hget]
    rw [hcontrib] at hin
    by_cases hp : q.type = PieceType.PAWN
    · rw [if_pos hp] at hin
      rw [List.mem_filter] at hin
      obtain ⟨hmem2, hvalid⟩ := hin
      refine ⟨(sq, q), hq, hqc, Or.inl ⟨hp, hvalid, ?_⟩⟩
      rcases List.mem_cons.mp hmem2 with rfl | h'
      · exact Or.inl rfl
      · rcases List.mem_cons.mp h' with rfl | h''
        · exact Or.inr rfl
        · simp at h''
    · rw [if_neg hp] at hin
      obtain ⟨m, hmm, hme⟩ := List.mem_map.mp hin
      exact ⟨(sq, q), hq, hqc, Or.inr ⟨hp, m, hmm, hme⟩⟩
  · rintro ⟨e, he, hec, hcase⟩
    have heta : (e.1, e.2) = e := rfl
    have hget : b.get e.1 = some e.2 := get_of_mem_wf hWF (by rw [heta]; exact he)
    have hmem : e.1 ∈ b.get_squares_with_pieces c :=
      (mem_squares_with_iff b c e.1).mpr ⟨e.2, by rw [heta]; exact he, hec⟩
    refine ⟨e.1, hmem, ?_⟩
    have hcontrib : attackContribution b e.1 =
        (if e.2.type = PieceType.PAWN then
          ([⟨e.1.row + pawn_direction e.2.color, e.1.column - 1⟩,
            ⟨e.1.row + pawn_direction e.2.color, e.1.column + 1⟩] : List Square).filter
            (fun s => s.is_valid)
        else (get_psuedo_legal_moves_for_piece e.2 e.1 b none).map (·.endSq)) := by
      unfold attackContribution
      rw [hget]
    rw [hcontrib]
    rcases hcase with ⟨hp, hvalid, hor⟩ | ⟨hp, m, hmm, hme⟩
    · rw [if_pos hp]
      rw [List.mem_filter]
      refine ⟨?_, hvalid⟩
      rcases hor with rfl | rfl
      · exact List.mem_cons_self _ _
      · exact List.mem_cons_of_mem _ (List.mem_cons_self _ _)
    · rw [if_neg hp]
      exact List.mem_map.mpr ⟨m, hmm, hme⟩

/-- Claim C7, witness: the black rook's square on `exPromoBoard` is white-
attacked, being a diagonal-forward square of the white pawn there. -/
theorem C7_witness :
    (⟨7, 4⟩ : Square) ∈ get_attacked_squares exPromoBoard PieceColor.WHITE ↔
      ∃ e ∈ exPromoBoard.entries, e.2.color = PieceColor.WHITE ∧
        ((e.2.type = PieceType.PAWN ∧ (⟨7, 4⟩ : Square).is_valid = true ∧
           ((⟨7, 4⟩ : Square) = ⟨e.1.row + pawn_direction e.2.color, e.1.column - 1⟩ ∨
            (⟨7, 4⟩ : Square) = ⟨e.1.row + pawn_direction e.2.color, e.1.column + 1⟩)) ∨
         (e.2.type ≠ PieceType.PAWN ∧
           ∃ m ∈ get_psuedo_legal_moves_for_piece e.2 e.1 exPromoBoard none,
             m.endSq = (⟨7, 4⟩ : Square))) :=
  C7_attacked_squares_mem exPromoBoard PieceColor.WHITE ⟨7, 4⟩ (by decide)

end Chess
